import Mathlib

/-!
Verification of the SuperClaude matching-and-decision core.

This file shallowly embeds the Python modules
`src/superclaude/intent/models.py`, `src/superclaude/intent/matcher.py`,
`src/superclaude/intent/inferrer.py`, `src/superclaude/execution/models.py`,
`src/superclaude/execution/router.py`, `src/superclaude/execution/validator.py`
and `src/superclaude/execution/learner.py` in Lean 4, and proves the spec's
claims about them.

Modelling conventions:
- Python `float` confidences are modelled as `ℚ`; every constant in the code
  (0.60, 0.15, 0.75, 0.85, 0.90, 0.05, 1.0) is an exact decimal.
- Python `dict` (insertion-ordered) is modelled as an association list
  `List (String × _)` with in-place update (`dict_set`).
- Python dynamically typed argument values are modelled by `PyVal`.
- `pathlib.Path` values are modelled by the string they print as.
- The Python `re` module (an external library) is modelled by an abstract
  `RegexEngine` parameter for the skill-supplied regular expressions; the two
  fixed regex shapes the code builds itself (the `--name value` flag pattern
  and the primary-template patterns' source text) are hand-compiled faithfully.
- Exceptions that can escape an embedded function are modelled with
  `Except Unit`; `.error ()` is a raised exception.
-/

/-- A dynamically typed Python value as it occurs in argument maps:
`None`, a string, an int, or a bool. -/
inductive PyVal where
  | null : PyVal
  | str (s : String) : PyVal
  | int (n : Int) : PyVal
  | bool (b : Bool) : PyVal
  deriving DecidableEq, Repr

/-- Association-list lookup: the value stored under key `k`, if any.
Models Python `d.get(k)` / `d[k]` on an insertion-ordered dict. -/
def alGet {α : Type} (l : List (String × α)) (k : String) : Option α :=
  match l with
  | [] => none
  | (k', v) :: rest => if k' = k then some v else alGet rest k

/-- Association-list key membership: models Python `k in d`. -/
def hasKey {α : Type} (l : List (String × α)) (k : String) : Bool :=
  match l with
  | [] => false
  | (k', _) :: rest => k' = k || hasKey rest k

/-- Python dict assignment `d[k] = v`: updates the value in place when the key
is present (keeping its position), appends the pair at the end otherwise. -/
def dict_set {α : Type} (l : List (String × α)) (k : String) (v : α) :
    List (String × α) :=
  match l with
  | [] => [(k, v)]
  | (k', v') :: rest =>
      if k' = k then (k', v) :: rest else (k', v') :: dict_set rest k v

/-- Is `needle` a contiguous substring of `hay`?  Models Python `needle in hay`
on strings (lists of characters). -/
def isSub (needle : List Char) : List Char → Bool
  | [] => needle.isEmpty
  | c :: t => needle.isPrefixOf (c :: t) || isSub needle t

/-- `needle in hay` on Lean strings. -/
def strContains (hay needle : String) : Bool :=
  isSub needle.data hay.data

/-- The whitespace characters of Python's `str.split()` / regex `\s`
(ASCII range; the queries and skill texts of this system are ASCII). -/
def pyIsSpace (c : Char) : Bool :=
  c = ' ' || c = '\t' || c = '\n' || c = '\r' || c = '\x0b' || c = '\x0c'

/-- Helper for `pySplit`: accumulates the current word (reversed). -/
def pySplitAux : List Char → List Char → List String
  | [], acc => if acc.isEmpty then [] else [String.mk acc.reverse]
  | c :: t, acc =>
      if pyIsSpace c then
        if acc.isEmpty then pySplitAux t []
        else String.mk acc.reverse :: pySplitAux t []
      else pySplitAux t (c :: acc)

/-- Python `s.split()`: split on runs of whitespace, discarding empty parts. -/
def pySplit (s : String) : List String :=
  pySplitAux s.data []

/-- Keep the first occurrence of each element.  Models iterating over the
Python `set` of query words: the set's iteration order is unspecified, and no
observable behaviour proved below depends on which fixed order is chosen. -/
def dedupFirstAux : List String → List String → List String
  | [], _ => []
  | x :: xs, seen =>
      if seen.contains x then dedupFirstAux xs seen
      else x :: dedupFirstAux xs (x :: seen)

def dedupFirst (l : List String) : List String :=
  dedupFirstAux l []

/-- Python `s.lower()` (ASCII case mapping, as in the skill texts). -/
def pyLower (s : String) : String :=
  String.mk (s.data.map Char.toLower)

/-- Python `s.strip()`: remove leading and trailing whitespace. -/
def pyStrip (s : String) : String :=
  String.mk
    (((s.data.dropWhile (fun c => pyIsSpace c)).reverse.dropWhile
      (fun c => pyIsSpace c)).reverse)

/-- Helper for `splitLines`. -/
def splitLinesAux : List Char → List Char → List String
  | [], acc => [String.mk acc.reverse]
  | '\n' :: t, acc => String.mk acc.reverse :: splitLinesAux t []
  | c :: t, acc => splitLinesAux t (c :: acc)

/-- Python `s.split(chr(10))`: split on every newline, keeping empty parts. -/
def splitLines (s : String) : List String :=
  splitLinesAux s.data []

/-- Python `s.startswith(pre)`. -/
def startsWithStr (s pre : String) : Bool :=
  pre.data.isPrefixOf s.data

/-- Python `s.endswith(suf)`. -/
def endsWithStr (s suf : String) : Bool :=
  suf.data.isSuffixOf s.data

/-- The first `n` characters removed. -/
def strDrop (s : String) (n : Nat) : String :=
  String.mk (s.data.drop n)

/-- The last `n` characters removed. -/
def strDropRight (s : String) (n : Nat) : String :=
  String.mk (s.data.take (s.data.length - n))

/-- Python `sep.join(l)`. -/
def joinSep (sep : String) : List String → String
  | [] => ""
  | [x] => x
  | x :: y :: rest => x ++ sep ++ joinSep sep (y :: rest)

/-! ## Data model (`src/superclaude/intent/models.py`) -/

/-- `MatchSource` — source of a skill match. -/
inductive MatchSource where
  | keyword : MatchSource
  | pattern : MatchSource
  | primary : MatchSource
  | context : MatchSource
  deriving DecidableEq, Repr

/-- `InferSource` — sources for argument inference. -/
inductive InferSource where
  | user_query : InferSource
  | project_context : InferSource
  | git_history : InferSource
  | learning : InferSource
  deriving DecidableEq, Repr

/-- The `.value` of an `InferSource` enum member. -/
def InferSource.val : InferSource → String
  | .user_query => "user_query"
  | .project_context => "project_context"
  | .git_history => "git_history"
  | .learning => "learning"

/-- `IntentMetadata` — intent detection metadata from skill frontmatter. -/
structure IntentMetadata where
  primary : List String := []
  keywords : List String := []
  patterns : List String := []
  contexts : List String := []
  deriving DecidableEq, Repr

/-- `ArgumentSchema` — argument schema definition from skill frontmatter.
The source field `default` is `Optional[Any]`. -/
structure ArgumentSchema where
  name : String
  type : String
  required : Bool := false
  description : String := ""
  infer_from : List String := []
  default : Option PyVal := none
  values : Option (List String) := none
  deriving DecidableEq, Repr

/-- One custom safety check, as produced by `SafetyCheck.from_dict` in
`src/superclaude/execution/models.py`.  The free-form `params` dict is
modelled by the three parameters the validator reads, each field holding the
value `params.get(key, default)` returns. -/
structure SafetyCheck where
  check_type : String
  /-- `params.get('allowed', [])` -/
  allowed : List String := []
  /-- `params.get('minimum_mb', 100)` -/
  minimum_mb : Int := 100
  /-- `params.get('files', [])` -/
  files : List String := []
  message : String := ""
  deriving DecidableEq, Repr

/-- `AutoTriggerConfig` — auto-execution configuration.  An element `none` of
`safety_checks` models a frontmatter entry that is not a dict (the validator
skips it: `SafetyCheck.from_dict(check_data) if isinstance(check_data, dict)
else None`). -/
structure AutoTriggerConfig where
  enabled : Bool := false
  confidence_threshold : ℚ := 0.85
  confirm_before_execution : Bool := true
  safety_checks : List (Option SafetyCheck) := []
  deriving DecidableEq, Repr

/-- `Skill` — skill metadata loaded from frontmatter.  `file_path` is the
printed path, if any. -/
structure Skill where
  name : String
  display_name : String := ""
  description : String := ""
  version : String := "1.0.0"
  category : String := "utility"
  complexity : String := "standard"
  intents : IntentMetadata := {}
  arguments : List ArgumentSchema := []
  auto_trigger : AutoTriggerConfig := {}
  mcp_servers : List String := []
  personas : List String := []
  author : String := ""
  tags : List String := []
  file_path : Option String := none
  deriving DecidableEq, Repr

/-- `FileStructure` — project file structure information (paths as strings).
The source default for `root_dir` is `Path.cwd()`, an external value. -/
structure FileStructure where
  root_dir : String
  source_dirs : List String := []
  test_dirs : List String := []
  config_files : List String := []
  total_files : Nat := 0
  deriving DecidableEq, Repr

/-- `GitInfo` — git repository information.  A recent commit is the
`Dict[str, str]` the analyzer built for it. -/
structure GitInfo where
  has_repo : Bool := false
  current_branch : String := ""
  main_branch : String := ""
  recent_commits : List (List (String × String)) := []
  uncommitted_changes : Int := 0
  status : String := ""
  deriving DecidableEq, Repr

/-- `Dependencies` — project dependencies information. -/
structure Dependencies where
  package_manager : String := ""
  config_file : Option String := none
  dependencies : List (String × String) := []
  dev_dependencies : List (String × String) := []
  deriving DecidableEq, Repr

/-- `TestingInfo` — testing framework information. -/
structure TestingInfo where
  framework : String := ""
  test_dirs : List String := []
  config_file : Option String := none
  deriving DecidableEq, Repr

/-- `ProjectContext` — current project context information.  The source field
`structure` is a Lean keyword, hence the trailing underscore. -/
structure ProjectContext where
  project_type : String := "unknown"
  structure_ : FileStructure
  git_info : GitInfo := {}
  dependencies : Dependencies := {}
  testing : TestingInfo := {}
  active_contexts : List String := []
  recent_skills : List String := []
  deriving DecidableEq, Repr

/-- `SkillMatch` — a skill match with confidence and inferred arguments.
Confidence is the Python float, modelled as `ℚ`. -/
structure SkillMatch where
  skill : Skill
  confidence : ℚ
  match_source : MatchSource
  arguments : List (String × PyVal) := []
  explanation : String := ""
  base_confidence : ℚ := 0.0
  deriving DecidableEq, Repr

/-- `MatchResult` — result of intent detection matching.  `elapsed_ms` is
wall-clock time in the source (`time.perf_counter`), an external effect; the
embedding reports 0.  The source field `matches` is reserved syntax in Lean,
hence the trailing underscore. -/
structure MatchResult where
  query : String
  matches_ : List SkillMatch := []
  context : Option ProjectContext := none
  elapsed_ms : ℚ := 0.0
  deriving DecidableEq, Repr

/-! ## Execution models (`src/superclaude/execution/models.py`) -/

/-- `SafetyResult` — result of safety validation. -/
structure SafetyResult where
  safe : Bool
  warning : Option String := none
  warnings : List String := []
  checks_performed : List String := []
  deriving DecidableEq, Repr

/-- `LearningData` — learning data for skill usage patterns.
`skill_usage` maps a skill name to its usage-statistics dict (int-valued:
the code only ever writes `count` and `success_count` integers);
`argument_patterns` maps `skill.argument` to a value→count dict;
`query_patterns` maps a skill name to its successful queries. -/
structure LearningData where
  skill_usage : List (String × List (String × Int)) := []
  argument_patterns : List (String × List (String × Int)) := []
  recent_skills : List String := []
  query_patterns : List (String × List String) := []
  deriving DecidableEq, Repr

/-- `LearningData.add_recent_skill` — add a skill to the recent list,
removing a previous occurrence and truncating to `max_recent`. -/
def LearningData.add_recent_skill (recent : List String) (skill_name : String)
    (max_recent : Nat := 10) : List String :=
  let removed := if skill_name ∈ recent then recent.erase skill_name else recent
  (skill_name :: removed).take max_recent

/-! ## Auto-execution eligibility
(`SkillMatch.auto_execute` in `src/superclaude/intent/models.py` and
`ExecutionRouter._should_auto_execute` in `src/superclaude/execution/router.py`) -/

/-- `SkillMatch.auto_execute` — check if this match should auto-execute. -/
def SkillMatch.auto_execute (m : SkillMatch) : Bool :=
  if !m.skill.auto_trigger.enabled then false
  else if m.confidence < m.skill.auto_trigger.confidence_threshold then false
  else
    let required_args := m.skill.arguments.filter (fun arg => arg.required)
    if !(required_args.all (fun arg => hasKey m.arguments arg.name)) then false
    else if m.skill.auto_trigger.confirm_before_execution then false
    else true

/-- `ExecutionRouter._should_auto_execute` — determine if a match should
auto-execute (the router's own copy of the decision). -/
def ExecutionRouter.should_auto_execute (m : SkillMatch) : Bool :=
  if !m.skill.auto_trigger.enabled then false
  else if m.confidence < m.skill.auto_trigger.confidence_threshold then false
  else
    let required_args := m.skill.arguments.filter (fun arg => arg.required)
    if !(required_args.all (fun arg => hasKey m.arguments arg.name)) then false
    else if m.skill.auto_trigger.confirm_before_execution then false
    else true

/-! ## Learning persistence (`src/superclaude/execution/learner.py`)

`LearningSystem.save` serializes the four `LearningData` fields with
`json.dump`; `LearningSystem.load` reads the file back with `json.load`.
The `json` module (Python stdlib, external to this repository) is modelled by
the `JValue` document type: `json.dump` then `json.load` of the int/str/list/
dict data at hand is the identity on `JValue`.  The storage file is modelled
as `Option (Option JValue)`:
`none` — the file does not exist;
`some none` — the file exists but its contents do not parse
(`json.JSONDecodeError`, or an `OSError` while reading);
`some (some j)` — the contents parse to the document `j`. -/

/-- A JSON document. -/
inductive JValue where
  | null : JValue
  | bool (b : Bool) : JValue
  | num (n : Int) : JValue
  | str (s : String) : JValue
  | arr (l : List JValue) : JValue
  | obj (l : List (String × JValue)) : JValue

/-- The JSON document `save` writes for a `LearningData` (the `data_dict`
of `LearningSystem.save`). -/
def encodeLearningData (d : LearningData) : JValue :=
  .obj
    [("skill_usage",
       .obj (d.skill_usage.map (fun p =>
         (p.1, .obj (p.2.map (fun q => (q.1, JValue.num q.2))))))),
     ("argument_patterns",
       .obj (d.argument_patterns.map (fun p =>
         (p.1, .obj (p.2.map (fun q => (q.1, JValue.num q.2))))))),
     ("recent_skills", .arr (d.recent_skills.map JValue.str)),
     ("query_patterns",
       .obj (d.query_patterns.map (fun p =>
         (p.1, .arr (p.2.map JValue.str)))))]

/-- Decode the entries of a string→int JSON object. -/
def decodeIntPairs : List (String × JValue) → Option (List (String × Int))
  | [] => some []
  | (k, .num n) :: rest => (decodeIntPairs rest).map (fun r => (k, n) :: r)
  | _ => none

/-- Decode a string→int JSON object (one skill's usage stats, or one
argument's value-frequency table). -/
def decodeIntDict (j : JValue) : Option (List (String × Int)) :=
  match j with
  | .obj l => decodeIntPairs l
  | _ => none

/-- Decode the entries of a JSON object whose values are string→int objects. -/
def decodeIntDictPairs :
    List (String × JValue) → Option (List (String × List (String × Int)))
  | [] => some []
  | (k, v) :: rest =>
      match decodeIntDict v with
      | some d => (decodeIntDictPairs rest).map (fun r => (k, d) :: r)
      | none => none

/-- Decode a JSON object whose values are string→int objects. -/
def decodeIntDictDict (j : JValue) : Option (List (String × List (String × Int))) :=
  match j with
  | .obj l => decodeIntDictPairs l
  | _ => none

/-- Decode the items of a JSON array of strings. -/
def decodeStrItems : List JValue → Option (List String)
  | [] => some []
  | .str s :: rest => (decodeStrItems rest).map (fun r => s :: r)
  | _ => none

/-- Decode a JSON array of strings. -/
def decodeStrList (j : JValue) : Option (List String) :=
  match j with
  | .arr l => decodeStrItems l
  | _ => none

/-- Decode the entries of a JSON object whose values are string arrays. -/
def decodeStrListPairs :
    List (String × JValue) → Option (List (String × List String))
  | [] => some []
  | (k, v) :: rest =>
      match decodeStrList v with
      | some d => (decodeStrListPairs rest).map (fun r => (k, d) :: r)
      | none => none

/-- Decode a JSON object whose values are arrays of strings. -/
def decodeStrListDict (j : JValue) : Option (List (String × List String)) :=
  match j with
  | .obj l => decodeStrListPairs l
  | _ => none

/-- Build a `LearningData` from a parsed document, as `LearningSystem.load`
does: each field is `data_dict.get(key, default)`.  The Python code stores
whatever the lookup returns without a type check; a document whose fields are
not of the saved shape is not representable in the typed embedding and is
mapped to `none` (such a document is never produced by `save`).  A document
that is not an object makes the Python code raise (`data_dict.get` on a
non-dict), also `none` here. -/
def learningDataFromJson (j : JValue) : Option LearningData :=
  match j with
  | .obj fields => do
      let su ← decodeIntDictDict ((alGet fields "skill_usage").getD (.obj []))
      let ap ← decodeIntDictDict ((alGet fields "argument_patterns").getD (.obj []))
      let rs ← decodeStrList ((alGet fields "recent_skills").getD (.arr []))
      let qp ← decodeStrListDict ((alGet fields "query_patterns").getD (.obj []))
      some { skill_usage := su, argument_patterns := ap,
             recent_skills := rs, query_patterns := qp }
  | _ => none

/-- `LearningSystem.load` on a fresh instance (`self._data is None`), as a
function of the storage file's state.  `some d` is a normal return of `d`;
`none` models an exception escaping `load` (only possible for a parseable
document that is not a JSON object — see `learningDataFromJson`).
A missing file and an unparseable file both yield a fresh empty
`LearningData`. -/
def LearningSystem.load (file : Option (Option JValue)) : Option LearningData :=
  match file with
  | none => some {}
  | some none => some {}
  | some (some j) => learningDataFromJson j

/-- `LearningSystem.save`: sets the in-memory `self._data` to `data` and
best-effort writes the encoded document.  `write_ok` models whether the
filesystem write succeeds; on failure (`OSError`) the code logs a warning and
returns normally, leaving the file as it was.  The result is
(new file state, new in-memory `_data`). -/
def LearningSystem.save (write_ok : Bool) (file : Option (Option JValue))
    (data : LearningData) : Option (Option JValue) × LearningData :=
  (if write_ok then some (some (encodeLearningData data)) else file, data)

/-! ## Safety validation (`src/superclaude/execution/validator.py`) -/

/-- The environment external to `SafetyValidator`: `shutil.disk_usage` on the
working volume.  `none` models the `except Exception` branch of
`_check_disk_space` (cannot check — assume sufficient); `some mb` is the
available space in megabytes (`stat.free / (1024 * 1024)`). -/
structure ValidatorEnv where
  disk_free_mb : Option ℚ := none
  deriving DecidableEq, Repr

/-- `SafetyValidator.DESTRUCTIVE_KEYWORDS`. -/
def DESTRUCTIVE_KEYWORDS : List String :=
  ["delete", "remove", "cleanup", "reset", "drop",
   "destroy", "clear", "purge", "wipe"]

/-- `SafetyValidator.FILE_MOD_KEYWORDS`. -/
def FILE_MOD_KEYWORDS : List String :=
  ["write", "create", "update", "modify", "edit",
   "generate", "build", "compile"]

/-- `SafetyValidator._is_destructive`: the lowercased `name description` text
contains a destructive keyword. -/
def SafetyValidator.is_destructive (skill : Skill) : Bool :=
  let skill_text := pyLower (skill.name ++ " " ++ skill.description)
  DESTRUCTIVE_KEYWORDS.any (fun kw => strContains skill_text kw)

/-- `SafetyValidator._may_modify_files`. -/
def SafetyValidator.may_modify_files (skill : Skill) : Bool :=
  let skill_text := pyLower (skill.name ++ " " ++ skill.description)
  FILE_MOD_KEYWORDS.any (fun kw => strContains skill_text kw)

/-- `SafetyValidator._on_main_branch`. -/
def SafetyValidator.on_main_branch (context : ProjectContext) : Bool :=
  if !context.git_info.has_repo then false
  else ["main", "master"].contains context.git_info.current_branch

/-- `SafetyValidator._check_mcp_dependencies`: stub — always reports no
missing MCP servers. -/
def SafetyValidator.check_mcp_dependencies (_skill : Skill)
    (_context : ProjectContext) : List String :=
  []

/-- `SafetyValidator._check_disk_space`: at least `minimum_mb` megabytes are
free (or the check itself failed, which counts as sufficient). -/
def SafetyValidator.check_disk_space (env : ValidatorEnv)
    (minimum_mb : Int := 100) : Bool :=
  match env.disk_free_mb with
  | none => true
  | some available_mb => (minimum_mb : ℚ) ≤ available_mb

/-- `SafetyValidator._matches_pattern`: exact, `p/*` as a p-prefixed branch
name, `*/s` as an s-suffixed branch name. -/
def SafetyValidator.matches_pattern (text : String) (pat : String) : Bool :=
  if !(strContains pat "*") then text = pat
  else if endsWithStr pat "/*" then startsWithStr text (strDropRight pat 2)
  else if startsWithStr pat "*/" then endsWithStr text (strDrop pat 2)
  else false

/-- Python `repr` of a list of strings, as `str.format` prints the `allowed`
list in the default `git_branch` message. -/
def pyReprStrList (l : List String) : String :=
  "[" ++ joinSep ", " (l.map (fun s => "\x27" ++ s ++ "\x27")) ++ "]"

/-- `SafetyValidator._check_git_branch`. -/
def SafetyValidator.check_git_branch (check : SafetyCheck)
    (context : ProjectContext) : SafetyResult :=
  if !context.git_info.has_repo then { safe := true }
  else
    let allowed := check.allowed
    let current := context.git_info.current_branch
    if allowed = [] then { safe := true }
    else if allowed.any (fun pat => SafetyValidator.matches_pattern current pat) then
      { safe := true }
    else
      let message :=
        if check.message ≠ "" then check.message
        else "Branch \x27" ++ current ++ "\x27 not in allowed list: " ++
          pyReprStrList allowed
      { safe := false, warning := some message }

/-- `SafetyValidator._check_disk_space_custom`. -/
def SafetyValidator.check_disk_space_custom (env : ValidatorEnv)
    (check : SafetyCheck) : SafetyResult :=
  let minimum := check.minimum_mb
  if SafetyValidator.check_disk_space env minimum then { safe := true }
  else
    let message :=
      if check.message ≠ "" then check.message
      else "Requires at least " ++ toString minimum ++ "MB free space"
    { safe := false, warning := some message }

/-- The `modified_files` list of `SafetyValidator._check_no_conflicts`:
the last whitespace-delimited field of every non-blank status line that does
not start with `??` (untracked).  A non-blank line always has a last field. -/
def modifiedFilesOf (status : String) : List String :=
  (splitLines status).filterMap (fun line =>
    if pyStrip line ≠ "" && !(startsWithStr line "??") then (pySplit line).getLast?
    else none)

/-- `SafetyValidator._check_no_conflicts`. -/
def SafetyValidator.check_no_conflicts (check : SafetyCheck)
    (context : ProjectContext) : SafetyResult :=
  if !context.git_info.has_repo then { safe := true }
  else if context.git_info.uncommitted_changes = 0 then { safe := true }
  else
    let files := check.files
    if files = [] then { safe := true }
    else
      let modified_files := modifiedFilesOf context.git_info.status
      let conflicts := files.filter (fun f => modified_files.contains f)
      if conflicts ≠ [] then
        let message :=
          if check.message ≠ "" then check.message
          else "Modified files conflict: " ++ joinSep ", " conflicts
        { safe := false, warning := some message }
      else { safe := true }

/-- `SafetyValidator._run_custom_check`: dispatch on `check_type`; unknown
check types pass. -/
def SafetyValidator.run_custom_check (env : ValidatorEnv) (check : SafetyCheck)
    (context : ProjectContext) : SafetyResult :=
  if check.check_type = "git_branch" then
    SafetyValidator.check_git_branch check context
  else if check.check_type = "disk_space" then
    SafetyValidator.check_disk_space_custom env check
  else if check.check_type = "no_conflicts" then
    SafetyValidator.check_no_conflicts check context
  else { safe := true }

/-- The check-5 loop of `SafetyValidator.validate`: run the custom checks in
order; the first blocking one ends validation with its own (fresh) result;
if none blocks, return `safe=True` with the accumulated soft warnings and
check names. -/
def SafetyValidator.run_custom_checks (env : ValidatorEnv)
    (context : ProjectContext) (warnings checks : List String) :
    List (Option SafetyCheck) → SafetyResult
  | [] => { safe := true, warnings := warnings, checks_performed := checks }
  | none :: rest => SafetyValidator.run_custom_checks env context warnings checks rest
  | some check :: rest =>
      let checks' := checks ++ ["custom:" ++ check.check_type]
      let result := SafetyValidator.run_custom_check env check context
      if !result.safe then result
      else SafetyValidator.run_custom_checks env context warnings checks' rest

/-- `SafetyValidator.validate` — run the five safety checks in order,
short-circuiting on the first blocking one. -/
def SafetyValidator.validate (env : ValidatorEnv) (m : SkillMatch)
    (context : ProjectContext) : SafetyResult :=
  -- Check 1: destructive operations on main branch
  let destructive := SafetyValidator.is_destructive m.skill
  let checks1 : List String := if destructive then ["destructive_operation"] else []
  if destructive && SafetyValidator.on_main_branch context then
    { safe := false,
      warning := some ("Destructive operation blocked on main/master branch. " ++
        "Switch to a feature branch first."),
      checks_performed := checks1 }
  else
    -- Check 2: dependencies
    let (warnings2, checks2) :=
      if m.skill.mcp_servers ≠ [] then
        let missing := SafetyValidator.check_mcp_dependencies m.skill context
        ((if missing ≠ [] then
            ["MCP servers may not be available: " ++ joinSep ", " missing]
          else []),
         checks1 ++ ["dependencies"])
      else ([], checks1)
    -- Check 3: disk space (for file operations)
    let modifies := SafetyValidator.may_modify_files m.skill
    let checks3 := if modifies then checks2 ++ ["disk_space"] else checks2
    if modifies && !(SafetyValidator.check_disk_space env 100) then
      { safe := false,
        warning := some "Insufficient disk space. At least 100MB required.",
        checks_performed := checks3 }
    else
      -- Check 4: file conflicts (for git/build operations)
      let (warnings4, checks4) :=
        if context.git_info.has_repo && modifies then
          ((warnings2 ++
             if context.git_info.uncommitted_changes > 10 then
               ["Many uncommitted changes (" ++
                 toString context.git_info.uncommitted_changes ++
                 "). Consider committing or stashing first."]
             else []),
           checks3 ++ ["file_conflicts"])
        else (warnings2, checks3)
      -- Check 5: custom safety checks from skill config
      SafetyValidator.run_custom_checks env context warnings4 checks4
        m.skill.auto_trigger.safety_checks

/-! ## The `re` module interface and the regex texts the code builds -/

/-- Abstract interface to Python `re.search` for the skill-supplied patterns.
`searchIC` is `re.search(pattern, text, re.IGNORECASE)`, `search` is
`re.search(pattern, text)`.  Result: `none` — the pattern does not compile
(`re.error`); `some none` — no match; `some (some gd)` — a match whose
`groupdict()` is `gd` (a named group maps to its matched substring, or to
`none` when it did not participate in the match). -/
structure RegexEngine where
  searchIC : String → String → Option (Option (List (String × Option String)))
  search : String → String → Option (Option (List (String × Option String)))

/-- The characters `re.escape` prefixes with a backslash (CPython's
`_special_chars_map`). -/
def RE_SPECIALS : List Char :=
  ['(', ')', '[', ']', '{', '}', '?', '*', '+', '-', '|', '^', '$', '\\',
   '.', '&', '~', '#', ' ', '\t', '\n', '\r', '\x0b', '\x0c']

/-- `re.escape` on the characters of a string. -/
def reEscape : List Char → List Char
  | [] => []
  | c :: rest =>
      if RE_SPECIALS.contains c then '\\' :: c :: reEscape rest
      else c :: reEscape rest

/-- A `\w` word character (ASCII range, as used in skill parameter names). -/
def isWordChar (c : Char) : Bool :=
  c.isAlpha || c.isDigit || c = '_'

/-- `re.sub(r"\\{(\w+)\\}", repl, l)` on escaped text: replace every
escaped `{word}` placeholder by `repl word`, scanning left to right. -/
def substBrace (repl : List Char → List Char) (l : List Char) : List Char :=
  match l with
  | '\\' :: '{' :: rest =>
      let w := rest.takeWhile isWordChar
      (match h : rest.drop w.length with
       | '\\' :: '}' :: r2 =>
           if w.isEmpty then '\\' :: '{' :: substBrace repl rest
           else repl w ++ substBrace repl r2
       | [] => '\\' :: '{' :: substBrace repl rest
       | _ :: _ => '\\' :: '{' :: substBrace repl rest)
  | c :: rest => c :: substBrace repl rest
  | [] => []
termination_by l.length
decreasing_by
  · simp; omega
  · have hl := congrArg List.length h
    simp [List.length_drop] at hl
    simp; omega
  · simp; omega
  · simp; omega
  · simp

/-- `re.sub(rf"\\{{{name}\\}}", repl, l)`: replace every escaped occurrence
of the one placeholder `{name}` by `repl`. -/
def substBraceName (name : List Char) (repl : List Char) (l : List Char) :
    List Char :=
  match l with
  | '\\' :: '{' :: rest =>
      if (name ++ ['\\', '}']).isPrefixOf rest then
        repl ++ substBraceName name repl (rest.drop (name.length + 2))
      else '\\' :: '{' :: substBraceName name repl rest
  | c :: rest => c :: substBraceName name repl rest
  | [] => []
termination_by l.length
decreasing_by
  · simp [List.length_drop]; omega
  · simp; omega
  · simp

/-- `pattern.replace(r"\ ", r"\s+")`: make escaped spaces flexible. -/
def replEscSpace : List Char → List Char
  | '\\' :: ' ' :: rest => '\\' :: 's' :: '+' :: replEscSpace rest
  | c :: rest => c :: replEscSpace rest
  | [] => []

/-- `SkillMatcher._primary_to_regex`: escape the template, turn every
`{param}` into a named capture group `(?P<param>.+)`, make spaces flexible. -/
def SkillMatcher.primary_to_regex (primary : String) : String :=
  let escaped := reEscape primary.data
  let pattern := substBrace (fun w => "(?P<".data ++ w ++ ">.+)".data) escaped
  String.mk (replEscSpace pattern)

/-- `ArgumentInferrer._primary_to_regex`: like the matcher's conversion, but
only `{param_name}` becomes a named group; other placeholders become
non-capturing `(?:.+)` groups. -/
def ArgumentInferrer.primary_to_regex (primary : String) (param_name : String) :
    String :=
  let escaped := reEscape primary.data
  let p1 := substBraceName param_name.data
    ("(?P<".data ++ param_name.data ++ ">.+)".data) escaped
  let p2 := substBrace (fun _w => "(?:.+)".data) p1
  String.mk (replEscSpace p2)

/-! ## Argument inference (`src/superclaude/intent/inferrer.py`) -/

/-- The digit-and-underscore tail of a Python integer literal (after the
first digit): underscores must be single and followed by a digit. -/
def pyIntTail : List Char → Bool
  | [] => true
  | ['_'] => false
  | '_' :: c :: rest => c.isDigit && pyIntTail rest
  | c :: rest => c.isDigit && pyIntTail rest

/-- Do these characters form a valid Python unsigned integer literal? -/
def pyIntDigitsOk : List Char → Bool
  | [] => false
  | c :: rest => c.isDigit && pyIntTail rest

/-- The value of a digit string, ignoring underscores. -/
def digitsVal (l : List Char) : Nat :=
  (l.filter (fun c => c ≠ '_')).foldl (fun acc c => acc * 10 + (c.toNat - 48)) 0

/-- Python `int(v)` on an already-stripped string: optional sign, then
digits (ASCII; possibly with single underscores between them).
`none` models `ValueError`. -/
def pyParseInt (v : String) : Option Int :=
  match v.data with
  | '+' :: rest => if pyIntDigitsOk rest then some (digitsVal rest) else none
  | '-' :: rest => if pyIntDigitsOk rest then some (-(digitsVal rest : Int)) else none
  | l => if pyIntDigitsOk l then some (digitsVal l) else none

/-- `ArgumentInferrer._cast_value`: cast an extracted string to the declared
argument type; `int` falls back to the raw string on parse failure. -/
def ArgumentInferrer.cast_value (value : String) (arg_type : String) : PyVal :=
  let v := pyStrip value
  if arg_type = "string" then .str v
  else if arg_type = "int" then
    match pyParseInt v with
    | some n => .int n
    | none => .str v
  else if arg_type = "bool" then
    .bool (["true", "yes", "1", "on", "enable"].contains (pyLower v))
  else if arg_type = "path" then .str v
  else if arg_type = "enum" then .str v
  else .str v

/-- The optional value group of the flag pattern
`--name(?:\s+([^\s-]+))?`, matched greedily right after `--name`:
skip at least one whitespace character and take the maximal run of
characters that are neither whitespace nor `-`; the group participates only
when both runs are non-empty. -/
def flagGroup (rest : List Char) : Option String :=
  let sp := rest.takeWhile pyIsSpace
  if sp.isEmpty then none
  else
    let val := (rest.drop sp.length).takeWhile (fun c => !pyIsSpace c && c ≠ '-')
    if val.isEmpty then none else some (String.mk val)

/-- Leftmost search for the flag pattern: at the first position where the
literal `pat` (= `--name`) occurs, the whole pattern matches with the
optional value group as `flagGroup` finds it. -/
def flagScan (pat : List Char) : List Char → Option (Option String)
  | [] => none
  | c :: t =>
      if pat.isPrefixOf (c :: t) then some (flagGroup ((c :: t).drop pat.length))
      else flagScan pat t

/-- Strategy 1 of `_extract_from_query`:
`re.search(rf"--{arg.name}(?:\s+([^\s-]+))?", query)`, hand-compiled
(argument names are `\w`-only, so the name is literal in the pattern).
`some g` is a match with `group(1) = g`. -/
def ArgumentInferrer.flag_search (argName : String) (query : String) :
    Option (Option String) :=
  flagScan ("--" ++ argName).data query.data

/-- Strategy 2 of `_extract_from_query`: boolean detection by keyword cues,
positive cues checked first. -/
def ArgumentInferrer.bool_from_keywords (arg : ArgumentSchema)
    (query_lower : String) : Option PyVal :=
  if arg.type = "bool" then
    if ["yes", "true", "enable", "on"].any (fun kw => strContains query_lower kw)
    then some (.bool true)
    else if ["no", "false", "disable", "off"].any
        (fun kw => strContains query_lower kw)
    then some (.bool false)
    else none
  else none

/-- Strategy 3 of `_extract_from_query`: walk the skill's primary templates;
for each template containing the `{name}` placeholder, search its converted
regex against the query (IGNORECASE).  `.error ()`: the constructed pattern
does not compile (no handler in the inferrer), or the named group is `None`
(`_cast_value(None)` raises).  A match without the group key, or no match,
moves on to the next template. -/
def ArgumentInferrer.primary_extract (engine : RegexEngine) (query : String)
    (arg : ArgumentSchema) : List String → Except Unit (Option String)
  | [] => .ok none
  | primaryPat :: rest =>
      if strContains primaryPat ("\x7b" ++ arg.name ++ "\x7d") then
        match engine.searchIC (ArgumentInferrer.primary_to_regex primaryPat arg.name) query with
        | none => .error ()
        | some none => ArgumentInferrer.primary_extract engine query arg rest
        | some (some gd) =>
            match alGet gd arg.name with
            | some (some v) => .ok (some v)
            | some none => .error ()
            | none => ArgumentInferrer.primary_extract engine query arg rest
      else ArgumentInferrer.primary_extract engine query arg rest

/-- Strategy 4 of `_extract_from_query`: for enum arguments, the first
declared enum value that occurs (case-insensitively) in the query. -/
def ArgumentInferrer.enum_detect (arg : ArgumentSchema) (query_lower : String) :
    Option PyVal :=
  if arg.type = "enum" then
    match arg.values with
    | some vs =>
        match vs.find? (fun ev => strContains query_lower (pyLower ev)) with
        | some ev => some (.str ev)
        | none => none
    | none => none
  else none

/-- `ArgumentInferrer._extract_from_query`: the four extraction strategies in
source order.  A flag match returns `True` for a bool argument, the cast
group value when the group matched, and otherwise falls through to the later
strategies. -/
def ArgumentInferrer.extract_from_query (engine : RegexEngine) (query : String)
    (arg : ArgumentSchema) (skill : Skill) : Except Unit (Option PyVal) :=
  let query_lower := pyLower query
  let flagVal : Option PyVal :=
    match ArgumentInferrer.flag_search arg.name query with
    | some g =>
        if arg.type = "bool" then some (.bool true)
        else
          match g with
          | some v => some (ArgumentInferrer.cast_value v arg.type)
          | none => none
    | none => none
  match flagVal with
  | some v => .ok (some v)
  | none =>
    match ArgumentInferrer.bool_from_keywords arg query_lower with
    | some v => .ok (some v)
    | none => do
        match (← ArgumentInferrer.primary_extract engine query arg
            skill.intents.primary) with
        | some v => .ok (some (ArgumentInferrer.cast_value v arg.type))
        | none => .ok (ArgumentInferrer.enum_detect arg query_lower)

/-- `ArgumentInferrer._infer_from_context`: name-sensitive heuristics over
the project context. -/
def ArgumentInferrer.infer_from_context (context : ProjectContext)
    (arg : ArgumentSchema) : Option PyVal :=
  if ["target", "path", "file", "directory"].contains arg.name then
    some (.str (match context.structure_.source_dirs with
      | d :: _ => d
      | [] => context.structure_.root_dir))
  else if arg.name = "type" && arg.type = "enum" then
    match arg.values with
    | some (v :: vs) =>
        if ((v :: vs).contains context.project_type) then
          some (.str context.project_type)
        else none
    | _ => none
  else if arg.name = "framework" then
    if context.testing.framework ≠ "" then some (.str context.testing.framework)
    else none
  else if arg.name = "language" || arg.name = "platform" then
    if context.project_type = "python" then some (.str "python")
    else if context.project_type = "typescript" then some (.str "typescript")
    else if context.project_type = "javascript" then some (.str "javascript")
    else if context.project_type = "mixed" then some (.str "typescript")
    else none
  else none

/-- `ArgumentInferrer._infer_from_git`. -/
def ArgumentInferrer.infer_from_git (git_info : GitInfo) (arg : ArgumentSchema) :
    Option PyVal :=
  if !git_info.has_repo then none
  else if arg.name = "branch" then some (.str git_info.current_branch)
  else if ["changes", "uncommitted", "dirty"].contains arg.name
      && arg.type = "bool" then
    some (.bool (git_info.uncommitted_changes > 0))
  else if ["message", "commit"].contains arg.name then
    match git_info.recent_commits with
    | c :: _ => some (.str ((alGet c "message").getD ""))
    | [] => none
  else none

/-- `ArgumentInferrer._infer_from_learning`: stub — always yields no value
(reserved extension point). -/
def ArgumentInferrer.infer_from_learning (_skill_name : String)
    (_arg : ArgumentSchema) : Option PyVal :=
  none

/-- The per-argument body of `ArgumentInferrer.infer`: try each inference
source in the fixed source order (`user_query`, `project_context`,
`git_history`, `learning`), consulting a source exactly when its name is in
the argument's `infer_from` list; the first non-`None` value wins; with no
value, the schema's `default` (which may itself be absent). -/
def ArgumentInferrer.infer_value (engine : RegexEngine) (query : String)
    (skill : Skill) (context : ProjectContext) (arg : ArgumentSchema) :
    Except Unit (Option PyVal) := do
  let v1 ← (if arg.infer_from.contains InferSource.user_query.val then
      ArgumentInferrer.extract_from_query engine query arg skill
    else .ok none)
  match v1 with
  | some v => .ok (some v)
  | none =>
    let v2 := if arg.infer_from.contains InferSource.project_context.val then
        ArgumentInferrer.infer_from_context context arg
      else none
    match v2 with
    | some v => .ok (some v)
    | none =>
      let v3 := if arg.infer_from.contains InferSource.git_history.val then
          ArgumentInferrer.infer_from_git context.git_info arg
        else none
      match v3 with
      | some v => .ok (some v)
      | none =>
        let v4 := if arg.infer_from.contains InferSource.learning.val then
            ArgumentInferrer.infer_from_learning skill.name arg
          else none
        match v4 with
        | some v => .ok (some v)
        | none => .ok arg.default

/-- The `for arg in skill.arguments` loop of `ArgumentInferrer.infer`:
process the remaining arguments against the accumulated dict, propagating a
raised exception. -/
def ArgumentInferrer.inferGo (engine : RegexEngine) (query : String)
    (skill : Skill) (context : ProjectContext) :
    List ArgumentSchema → List (String × PyVal) →
    Except Unit (List (String × PyVal))
  | [], acc => .ok acc
  | arg :: rest, acc =>
      match ArgumentInferrer.infer_value engine query skill context arg with
      | .error e => .error e
      | .ok (some v) =>
          ArgumentInferrer.inferGo engine query skill context rest
            (dict_set acc arg.name v)
      | .ok none => ArgumentInferrer.inferGo engine query skill context rest acc

/-- `ArgumentInferrer.infer`: build the argument map, one declared argument
at a time in declaration order; an argument with no inferred value and no
default is omitted. -/
def ArgumentInferrer.infer (engine : RegexEngine) (query : String)
    (skill : Skill) (context : ProjectContext) :
    Except Unit (List (String × PyVal)) :=
  ArgumentInferrer.inferGo engine query skill context skill.arguments []

/-- One inference source consulted for one argument, dispatched by the
source's name as it appears in `infer_from` (a name that is no known source
yields nothing). -/
def source_value (engine : RegexEngine) (query : String) (skill : Skill)
    (context : ProjectContext) (arg : ArgumentSchema) (src : String) :
    Except Unit (Option PyVal) :=
  if src = "user_query" then
    ArgumentInferrer.extract_from_query engine query arg skill
  else if src = "project_context" then
    .ok (ArgumentInferrer.infer_from_context context arg)
  else if src = "git_history" then
    .ok (ArgumentInferrer.infer_from_git context.git_info arg)
  else if src = "learning" then
    .ok (ArgumentInferrer.infer_from_learning skill.name arg)
  else .ok none

/-- The first listed source that yields a non-absent value, walking the
given source-name list in order. -/
def first_source_value (engine : RegexEngine) (query : String) (skill : Skill)
    (context : ProjectContext) (arg : ArgumentSchema) :
    List String → Except Unit (Option PyVal)
  | [] => .ok none
  | src :: rest =>
      match source_value engine query skill context arg src with
      | .error e => .error e
      | .ok (some v) => .ok (some v)
      | .ok none => first_source_value engine query skill context arg rest

/-- The per-argument behaviour the code actually has, stated spec-style:
consult the sources in the fixed order `user_query`, `project_context`,
`git_history`, `learning`, restricted to those whose names appear in the
argument's `infer_from` list (membership — the list's own order is ignored);
the first consulted source with a non-absent value wins; with none, the
schema's `default`. -/
def fixed_order_value (engine : RegexEngine) (query : String) (skill : Skill)
    (context : ProjectContext) (arg : ArgumentSchema) :
    Except Unit (Option PyVal) :=
  match first_source_value engine query skill context arg
      (["user_query", "project_context", "git_history", "learning"].filter
        (fun src => arg.infer_from.contains src)) with
  | .error e => .error e
  | .ok (some v) => .ok (some v)
  | .ok none => .ok arg.default

/-- Modelled from the spec: the claim's reading of the per-argument
inference, in which the argument's `infer_from` list is walked in the order
the list is given and the first listed source with a non-absent value wins;
with none, the schema's `default`. -/
def infer_listed_value (engine : RegexEngine) (query : String) (skill : Skill)
    (context : ProjectContext) (arg : ArgumentSchema) :
    Except Unit (Option PyVal) :=
  match first_source_value engine query skill context arg arg.infer_from with
  | .error e => .error e
  | .ok (some v) => .ok (some v)
  | .ok none => .ok arg.default

/-- Modelled from the spec: `infer` as the claim reads it, with each
argument's sources walked in listed order (`infer_listed_value`). -/
def ArgumentInferrer.infer_listed (engine : RegexEngine) (query : String)
    (skill : Skill) (context : ProjectContext) :
    Except Unit (List (String × PyVal)) :=
  skill.arguments.foldlM (fun acc arg => do
    match (← infer_listed_value engine query skill context arg) with
    | some v => pure (dict_set acc arg.name v)
    | none => pure acc) []

/-! ## Intent matching (`src/superclaude/intent/matcher.py`)

The matcher's state is the list of loaded skills (the values of its
name→skill dict, in load order; loaded skill names are unique).  The context
analyzer (external collaborator) is modelled by passing the context in. -/

/-- Add one keyword→skill-name entry to the inverted index, preserving the
index's insertion order. -/
def indexAdd (idx : List (String × List String)) (kw : String)
    (skill_name : String) : List (String × List String) :=
  match idx with
  | [] => [(kw, [skill_name])]
  | (k, names) :: rest =>
      if k = kw then (k, names ++ [skill_name]) :: rest
      else (k, names) :: indexAdd rest kw skill_name

/-- `SkillMatcher._build_keyword_index`: inverted keyword→[skill names]
index, keywords lowercased. -/
def SkillMatcher.keyword_index (skills : List Skill) :
    List (String × List String) :=
  skills.foldl (fun idx skill =>
    skill.intents.keywords.foldl (fun idx kw =>
      indexAdd idx (pyLower kw) skill.name) idx) []

/-- A fresh keyword-stage match (base confidence 0.60, first hit). -/
def keywordMatch (skill : Skill) (word : String) : SkillMatch :=
  { skill := skill, confidence := 0.60, match_source := .keyword,
    explanation := "Keyword match: " ++ word, base_confidence := 0.60 }

/-- An additional distinct keyword hit for a skill already in the running
dict: `confidence = min(confidence + 0.15, 0.75)`, and `base_confidence`
follows the new confidence. -/
def bumpKeyword (skill_name : String) : List SkillMatch → List SkillMatch
  | [] => []
  | m :: rest =>
      if m.skill.name = skill_name then
        let c := min (m.confidence + 0.15) 0.75
        { m with confidence := c, base_confidence := c } :: rest
      else m :: bumpKeyword skill_name rest

/-- One skill credited for one query word in `_match_keywords`: create the
entry on the first hit, bump it on a repeat hit.  (The index lookup in the
source, `self.skills[skill_name]`, always succeeds because the index only
holds loaded names; an unknown name leaves the dict unchanged here.) -/
def keywordHit (skills : List Skill) (word : String) (acc : List SkillMatch)
    (skill_name : String) : List SkillMatch :=
  if acc.any (fun m => m.skill.name = skill_name) then bumpKeyword skill_name acc
  else
    match skills.find? (fun s => s.name = skill_name) with
    | some skill => acc ++ [keywordMatch skill word]
    | none => acc

/-- `SkillMatcher._match_keywords`: credit skills for each distinct
lowercase query word found in the keyword index.  The Python code iterates
over `set(query.split())`, whose order is unspecified; the embedding fixes
first-occurrence order (see `dedupFirst`). -/
def SkillMatcher.match_keywords (skills : List Skill) (query_lower : String) :
    List SkillMatch :=
  (dedupFirst (pySplit query_lower)).foldl (fun acc word =>
    match alGet (SkillMatcher.keyword_index skills) word with
    | some names => names.foldl (keywordHit skills word) acc
    | none => acc) []

/-- Convert a `groupdict()` into the Python argument dict it is stored as. -/
def gdToArgs (gd : List (String × Option String)) : List (String × PyVal) :=
  gd.map (fun p => (p.1, match p.2 with
    | some s => PyVal.str s
    | none => PyVal.null))

/-- The inner loop of `_match_patterns`: the first declared regex pattern
that compiles and matches wins; invalid patterns are skipped. -/
def firstPatternHit (engine : RegexEngine) (query : String) :
    List String → Option (String × List (String × Option String))
  | [] => none
  | p :: rest =>
      match engine.searchIC p query with
      | none => firstPatternHit engine query rest
      | some none => firstPatternHit engine query rest
      | some (some gd) => some (p, gd)

/-- `SkillMatcher._match_patterns`: fixed confidence 0.85, arguments from
the named capture groups. -/
def SkillMatcher.match_patterns (skills : List Skill) (engine : RegexEngine)
    (query : String) : List SkillMatch :=
  skills.filterMap (fun skill =>
    (firstPatternHit engine query skill.intents.patterns).map (fun hit =>
      { skill := skill, confidence := 0.85, match_source := .pattern,
        arguments := gdToArgs hit.2,
        explanation := "Pattern match: " ++ hit.1,
        base_confidence := 0.85 }))

/-- The inner loop of `_match_primary`: the first primary template whose
converted regex compiles and matches the lowercased query wins. -/
def firstPrimaryHit (engine : RegexEngine) (query_lower : String) :
    List String → Option (String × List (String × Option String))
  | [] => none
  | primaryPat :: rest =>
      match engine.search (SkillMatcher.primary_to_regex primaryPat) query_lower with
      | none => firstPrimaryHit engine query_lower rest
      | some none => firstPrimaryHit engine query_lower rest
      | some (some gd) => some (primaryPat, gd)

/-- `SkillMatcher._match_primary`: fixed confidence 0.90, arguments from the
template's captured parameters. -/
def SkillMatcher.match_primary (skills : List Skill) (engine : RegexEngine)
    (query : String) : List SkillMatch :=
  let query_lower := pyLower query
  skills.filterMap (fun skill =>
    (firstPrimaryHit engine query_lower skill.intents.primary).map (fun hit =>
      { skill := skill, confidence := 0.90, match_source := .primary,
        arguments := gdToArgs hit.2,
        explanation := "Primary pattern match: " ++ hit.1,
        base_confidence := 0.90 }))

/-- One dict update of `_combine_matches`: a new candidate for a skill name
replaces the stored one only with strictly higher confidence, keeping the
stored position; an unseen skill name is appended. -/
def combineUpsert (m : SkillMatch) : List SkillMatch → List SkillMatch
  | [] => [m]
  | x :: xs =>
      if x.skill.name = m.skill.name then
        (if m.confidence > x.confidence then m else x) :: xs
      else x :: combineUpsert m xs

/-- `SkillMatcher._combine_matches`: one candidate per skill across the
stage lists, processed in the order given. -/
def SkillMatcher.combine_matches (match_lists : List (List SkillMatch)) :
    List SkillMatch :=
  match_lists.foldl (fun acc l => l.foldl (fun a m => combineUpsert m a) acc) []

/-- `SkillMatcher._calculate_confidence`: the boosted confidence score and
the match's extended explanation trail.  Base score is the candidate's
pre-boost `base_confidence`; three optional +0.05 boosts; clamped to ≤1.0. -/
def SkillMatcher.calculate_confidence (m : SkillMatch) (_query : String)
    (context : ProjectContext) : ℚ × String :=
  let base_score := m.base_confidence
  let (s1, e1) :=
    if m.skill.intents.contexts.any (fun ctx => context.active_contexts.contains ctx)
    then (base_score + 0.05, m.explanation ++ " | Context boost")
    else (base_score, m.explanation)
  let (s2, e2) :=
    if context.recent_skills.contains m.skill.name
    then (s1 + 0.05, e1 ++ " | Recent usage boost")
    else (s1, e1)
  let required_args := m.skill.arguments.filter (fun arg => arg.required)
  let (s3, e3) :=
    if required_args ≠ [] &&
        required_args.all (fun arg => hasKey m.arguments arg.name)
    then (s2 + 0.05, e2 ++ " | Complete arguments")
    else (s2, e2)
  (min s3 1.0, e3)

/-- The `match.confidence = self._calculate_confidence(...)` loop body:
a candidate after boosting. -/
def boostMatch (query : String) (context : ProjectContext) (m : SkillMatch) :
    SkillMatch :=
  let r := SkillMatcher.calculate_confidence m query context
  { m with confidence := r.1, explanation := r.2 }

/-- Stable insertion into a descending-by-confidence list: the new element
goes before the first element of no higher confidence.  This is the
insertion step of a stable descending sort. -/
def insertDesc (x : SkillMatch) : List SkillMatch → List SkillMatch
  | [] => [x]
  | y :: ys =>
      if y.confidence ≤ x.confidence then x :: y :: ys
      else y :: insertDesc x ys

/-- Stable sort, descending by confidence.  Python's
`sorted(l, key=conf, reverse=True)` is a stable descending sort, and a
stable sort's output is determined by sortedness plus stability, so
insertion sort embeds it faithfully. -/
def sortDesc : List SkillMatch → List SkillMatch
  | [] => []
  | x :: xs => insertDesc x (sortDesc xs)

/-- The merged pre-boost candidates of one `match()` call. -/
def SkillMatcher.merged_candidates (skills : List Skill) (engine : RegexEngine)
    (user_query : String) : List SkillMatch :=
  let query_lower := pyStrip (pyLower user_query)
  SkillMatcher.combine_matches
    [SkillMatcher.match_keywords skills query_lower,
     SkillMatcher.match_patterns skills engine user_query,
     SkillMatcher.match_primary skills engine user_query]

/-- The merged candidates after the boosting loop. -/
def SkillMatcher.boosted_candidates (skills : List Skill) (engine : RegexEngine)
    (user_query : String) (context : ProjectContext) : List SkillMatch :=
  (SkillMatcher.merged_candidates skills engine user_query).map
    (boostMatch user_query context)

/-- The `for match in ranked_matches: match.arguments = inferrer.infer(...)`
loop of `SkillMatcher.match`: recompute the argument map of every ranked
candidate, propagating a raised exception. -/
def assignArgs (engine : RegexEngine) (query : String)
    (context : ProjectContext) : List SkillMatch → Except Unit (List SkillMatch)
  | [] => .ok []
  | m :: rest =>
      match ArgumentInferrer.infer engine query m.skill context with
      | .error e => .error e
      | .ok args =>
          match assignArgs engine query context rest with
          | .error e => .error e
          | .ok final => .ok ({ m with arguments := args } :: final)

/-- `SkillMatcher.match` (named `match_query` here: `match` is a Lean
keyword): rank the boosted candidates descending by confidence, keep the top
3, recompute their argument maps with the full inference pipeline, and
return the `MatchResult`.  `.error ()` models an exception escaping the
argument inferrer (see `ArgumentInferrer.primary_extract`). -/
def SkillMatcher.match_query (skills : List Skill) (engine : RegexEngine)
    (user_query : String) (context : ProjectContext) :
    Except Unit MatchResult :=
  let ranked :=
    (sortDesc (SkillMatcher.boosted_candidates skills engine user_query context)).take 3
  match assignArgs engine user_query context ranked with
  | .error e => .error e
  | .ok final =>
      .ok { query := user_query, matches_ := final, context := some context }

/-! ## Concrete fixtures used by witnesses and counterexamples -/

/-- A regex engine under which no skill-supplied pattern matches (all the
concrete skills below declare no regex patterns and no primary templates, so
any engine gives the same results on them). -/
def trivEngine : RegexEngine :=
  { searchIC := fun _ _ => some none, search := fun _ _ => some none }

/-- An empty project context. -/
def emptyCtx : ProjectContext :=
  { structure_ := { root_dir := "." } }

/-- A repository context on the feature branch `feature/x`. -/
def featureCtx : ProjectContext :=
  { structure_ := { root_dir := "." },
    git_info := { has_repo := true, current_branch := "feature/x",
                  main_branch := "main" } }

/-- A repository context on `main`. -/
def mainCtx : ProjectContext :=
  { structure_ := { root_dir := "." },
    git_info := { has_repo := true, current_branch := "main",
                  main_branch := "main" } }

/-- A destructive skill ("cleanup") with a custom `git_branch` safety check
allowing only `main`. -/
def cleanupGuardedSkill : Skill :=
  { name := "cleanup", description := "old branches",
    auto_trigger := { enabled := true, confirm_before_execution := false,
                      safety_checks := [some { check_type := "git_branch",
                                               allowed := ["main"],
                                               message := "Cleanup is only allowed on main" }] } }

/-- A destructive skill with no custom checks and no file-modification
keywords. -/
def plainCleanupSkill : Skill :=
  { name := "cleanup", description := "old branches" }

/-- A match carrying `cleanupGuardedSkill`. -/
def cleanupGuardedMatch : SkillMatch :=
  { skill := cleanupGuardedSkill, confidence := 0.9, match_source := .keyword }

/-- A match carrying `plainCleanupSkill`. -/
def plainCleanupMatch : SkillMatch :=
  { skill := plainCleanupSkill, confidence := 0.9, match_source := .keyword }

/-- An argument whose `infer_from` lists `project_context` before
`user_query`. -/
def targetArg : ArgumentSchema :=
  { name := "target", type := "string",
    infer_from := ["project_context", "user_query"] }

/-- A skill declaring only `targetArg` (no primary templates, so the regex
engine is never consulted during its inference). -/
def analyzeSkill : Skill :=
  { name := "analyze", arguments := [targetArg] }

/-- A context whose first source directory is `src`. -/
def srcCtx : ProjectContext :=
  { structure_ := { root_dir := ".", source_dirs := ["src"] } }

/-- A keyword-matched skill ("troubleshoot", keywords `fix` and `bug`). -/
def fixSkill : Skill :=
  { name := "troubleshoot",
    intents := { keywords := ["fix", "bug"] },
    auto_trigger := { enabled := true, confirm_before_execution := false } }

/-- The single candidate the keyword stage produces for `fixSkill` on the
query `"fix the bug"`: both keywords hit, ending at confidence
0.60 + 0.15 = 0.75. -/
def fixMatch : SkillMatch :=
  { skill := fixSkill, confidence := 0.75, match_source := .keyword,
    explanation := "Keyword match: fix", base_confidence := 0.75 }

/-- What `match_query [fixSkill] trivEngine "fix the bug" emptyCtx`
returns (`fixMatch` draws no boosts in the empty context). -/
def fixResult : MatchResult :=
  { query := "fix the bug",
    matches_ := [fixMatch],
    context := some emptyCtx }

/-- A keyword-triggered skill declaring the `target` argument. -/
def c6Skill : Skill :=
  { name := "analyze",
    intents := { keywords := ["analyze"] },
    arguments := [targetArg] }

/-- The match `match_query [c6Skill] trivEngine "analyze --target src2"
srcCtx` returns: keyword hit at 0.60, argument map recomputed by the
inferrer from the `--target` flag. -/
def c6Match : SkillMatch :=
  { skill := c6Skill, confidence := 0.60, match_source := .keyword,
    arguments := [("target", PyVal.str "src2")],
    explanation := "Keyword match: analyze", base_confidence := 0.60 }

def c6Result : MatchResult :=
  { query := "analyze --target src2",
    matches_ := [c6Match],
    context := some srcCtx }

/-! # Theorems -/

/-! ## C10 — router eligibility vs. match property -/

/-- C10: For every SkillMatch, the ExecutionRouter's private eligibility
function `_should_auto_execute(match)` returns the same boolean as the
`SkillMatch.auto_execute` property: the display path and the execution gate
are two implementations of one decision and always agree. -/
theorem c10_router_eligibility_equals_match_property (m : SkillMatch) :
    ExecutionRouter.should_auto_execute m = SkillMatch.auto_execute m :=
  rfl

/-! ## C1 — the four eligibility conditions -/

/-- C1: Auto-execution eligibility (both `_should_auto_execute` and the
`auto_execute` property) is false whenever the skill's auto-trigger config
requires confirmation, regardless of confidence; and eligibility holds
exactly when all four conditions do: auto-trigger enabled, confidence at
least the configured threshold, every required argument name present in the
inferred argument map, and no confirmation required. -/
theorem c1_eligibility_requires_all_four (m : SkillMatch) :
    (m.skill.auto_trigger.confirm_before_execution = true →
      ExecutionRouter.should_auto_execute m = false
      ∧ SkillMatch.auto_execute m = false)
    ∧ (ExecutionRouter.should_auto_execute m = true ↔
        (m.skill.auto_trigger.enabled = true
         ∧ m.skill.auto_trigger.confidence_threshold ≤ m.confidence
         ∧ (∀ arg ∈ m.skill.arguments, arg.required = true →
              hasKey m.arguments arg.name = true)
         ∧ m.skill.auto_trigger.confirm_before_execution = false)) := by
  unfold ExecutionRouter.should_auto_execute SkillMatch.auto_execute
  constructor
  · intro h
    simp [h]
  · constructor
    · intro h
      by_cases he : m.skill.auto_trigger.enabled <;> simp [he] at h ⊢
      exact h
    · rintro ⟨he, hc, ha, hn⟩
      simp [he, hn, not_lt.mpr hc, List.all_eq_true, List.mem_filter]
      exact fun arg hm hr => ha arg hm hr

/-- Witness for `c1_eligibility_requires_all_four` at a concrete match whose
skill requires confirmation: eligibility is false on both paths even though
the confidence 1 exceeds the threshold. -/
theorem c1_witness :
    ExecutionRouter.should_auto_execute
      { skill := { name := "cleanup",
                   auto_trigger := { enabled := true,
                                     confidence_threshold := 0.85,
                                     confirm_before_execution := true } },
        confidence := 1, match_source := .keyword } = false
    ∧ SkillMatch.auto_execute
      { skill := { name := "cleanup",
                   auto_trigger := { enabled := true,
                                     confidence_threshold := 0.85,
                                     confirm_before_execution := true } },
        confidence := 1, match_source := .keyword } = false :=
  (c1_eligibility_requires_all_four _).1 rfl

/-! ## C7 — the bounded recency list -/

/-- C7: For every recent-skills list of length at most 10 with no
duplicates, `add_recent_skill` (with its default bound) preserves both
properties, places the added name at the front exactly once, and leaves the
length unchanged when the name was already present. -/
theorem c7_add_recent_skill_invariants (l : List String) (name : String)
    (hlen : l.length ≤ 10) (hnd : l.Nodup) :
    (LearningData.add_recent_skill l name).length ≤ 10
    ∧ (LearningData.add_recent_skill l name).Nodup
    ∧ (LearningData.add_recent_skill l name).head? = some name
    ∧ (LearningData.add_recent_skill l name).count name = 1
    ∧ (name ∈ l → (LearningData.add_recent_skill l name).length = l.length) := by
  unfold LearningData.add_recent_skill
  by_cases hm : name ∈ l
  · rw [if_pos hm]
    have herase : (l.erase name).length = l.length - 1 :=
      List.length_erase_of_mem hm
    have hlpos : 0 < l.length := List.length_pos_of_mem hm
    have hfull : (name :: l.erase name).length = l.length := by
      simp [herase]; omega
    have htake : (name :: l.erase name).take 10 = name :: l.erase name :=
      List.take_of_length_le (by omega)
    have hnotmem : name ∉ l.erase name := fun hc =>
      ((hnd.mem_erase_iff).mp hc).1 rfl
    rw [htake]
    refine ⟨by omega, List.nodup_cons.mpr ⟨hnotmem, hnd.erase name⟩, rfl, ?_,
      fun _ => by omega⟩
    rw [List.count_cons_self, List.count_eq_zero_of_not_mem hnotmem]
  · rw [if_neg hm]
    have hnotmem9 : name ∉ l.take 9 := fun hc => hm (List.take_subset 9 l hc)
    have htake : (name :: l).take 10 = name :: l.take 9 := rfl
    rw [htake]
    refine ⟨?_, List.nodup_cons.mpr ⟨hnotmem9,
      hnd.sublist (List.take_sublist 9 l)⟩, rfl, ?_, fun hc => absurd hc hm⟩
    · have h9 := List.length_take_le 9 l
      simp only [List.length_cons]
      omega
    · rw [List.count_cons_self, List.count_eq_zero_of_not_mem hnotmem9]

/-- Witness for `c7_add_recent_skill_invariants`: pushing "fix" onto
["test", "fix"] keeps length 2, stays duplicate-free, and moves "fix" to
the front once. -/
theorem c7_witness :
    (LearningData.add_recent_skill ["test", "fix"] "fix").length ≤ 10
    ∧ (LearningData.add_recent_skill ["test", "fix"] "fix").Nodup
    ∧ (LearningData.add_recent_skill ["test", "fix"] "fix").head? = some "fix"
    ∧ (LearningData.add_recent_skill ["test", "fix"] "fix").count "fix" = 1
    ∧ ("fix" ∈ ["test", "fix"] →
        (LearningData.add_recent_skill ["test", "fix"] "fix").length =
          (["test", "fix"] : List String).length) :=
  c7_add_recent_skill_invariants ["test", "fix"] "fix" (by decide) (by decide)

/-! ## C9 / C8 — persistence resilience and round-trip -/

/-- C9: `load` never raises and returns a fresh empty `LearningData` when
the storage file is missing or its contents are unparseable, and a failed
write in `save` does not raise and leaves the in-memory data intact. -/
theorem c9_persistence_resilient :
    LearningSystem.load none = some ({} : LearningData)
    ∧ LearningSystem.load (some none) = some ({} : LearningData)
    ∧ ∀ (write_ok : Bool) (file : Option (Option JValue)) (d : LearningData),
        (LearningSystem.save write_ok file d).2 = d :=
  ⟨rfl, rfl, fun _ _ _ => rfl⟩

theorem decodeIntDict_encode (l : List (String × Int)) :
    decodeIntDict (.obj (l.map (fun q => (q.1, JValue.num q.2)))) = some l := by
  show decodeIntPairs _ = some l
  induction l with
  | nil => rfl
  | cons a t ih => simp [decodeIntPairs, ih]

theorem decodeIntDictDict_encode (l : List (String × List (String × Int))) :
    decodeIntDictDict (.obj (l.map (fun p =>
      (p.1, JValue.obj (p.2.map (fun q => (q.1, JValue.num q.2))))))) = some l := by
  show decodeIntDictPairs _ = some l
  induction l with
  | nil => rfl
  | cons a t ih => simp [decodeIntDictPairs, ih, decodeIntDict_encode]

theorem decodeStrList_encode (l : List String) :
    decodeStrList (.arr (l.map JValue.str)) = some l := by
  show decodeStrItems _ = some l
  induction l with
  | nil => rfl
  | cons a t ih => simp [decodeStrItems, ih]

theorem decodeStrListDict_encode (l : List (String × List String)) :
    decodeStrListDict (.obj (l.map (fun p =>
      (p.1, JValue.arr (p.2.map JValue.str))))) = some l := by
  show decodeStrListPairs _ = some l
  induction l with
  | nil => rfl
  | cons a t ih => simp [decodeStrListPairs, ih, decodeStrList_encode]

/-- C8: saving a `LearningData` and loading it back on a fresh instance
pointed at the same storage yields an equivalent value: same per-skill usage
counts, same argument-value frequency tables, same recency order, same
query-pattern lists. -/
theorem c8_save_load_round_trip (file : Option (Option JValue))
    (d : LearningData) :
    LearningSystem.load ((LearningSystem.save true file d).1) = some d := by
  show learningDataFromJson (encodeLearningData d) = some d
  simp [learningDataFromJson, encodeLearningData, alGet,
    decodeIntDictDict_encode, decodeStrList_encode, decodeStrListDict_encode]

/-! ## C2 — destructive skills and the branch gate -/

/-- C2 (amended): for every destructive skill, `validate` on a repository
whose current branch is `main` or `master` blocks immediately with the fixed
branch-switch message; and on the branch `feature/x` the destructive-
operation check never blocks — in particular, when the skill also has no
file-modification keywords and declares no custom safety checks, `validate`
returns `safe=true` there.  (The unamended claim — that a destructive skill
is never blocked at all on `feature/x` — fails: see
`c2_counterexample_custom_check_blocks_on_feature_branch`.) -/
theorem c2_destructive_branch_gate (env : ValidatorEnv) (m : SkillMatch)
    (context : ProjectContext)
    (hdes : SafetyValidator.is_destructive m.skill = true) :
    ((context.git_info.has_repo = true
      ∧ (context.git_info.current_branch = "main"
         ∨ context.git_info.current_branch = "master")) →
      SafetyValidator.validate env m context =
        { safe := false,
          warning := some ("Destructive operation blocked on main/master branch. " ++
            "Switch to a feature branch first."),
          warnings := [],
          checks_performed := ["destructive_operation"] })
    ∧ (context.git_info.current_branch = "feature/x" →
       SafetyValidator.may_modify_files m.skill = false →
       m.skill.auto_trigger.safety_checks = [] →
       (SafetyValidator.validate env m context).safe = true) := by
  constructor
  · rintro ⟨hrepo, hbr⟩
    have hmain : SafetyValidator.on_main_branch context = true := by
      unfold SafetyValidator.on_main_branch
      rcases hbr with h | h <;> simp [hrepo, h]
    unfold SafetyValidator.validate
    simp [hdes, hmain]
  · intro hbr hmod hsc
    have hmain : SafetyValidator.on_main_branch context = false := by
      unfold SafetyValidator.on_main_branch
      by_cases hrepo : context.git_info.has_repo <;> simp [hrepo, hbr]
    unfold SafetyValidator.validate
    simp [hmain, hmod, hsc, SafetyValidator.run_custom_checks]

/-- Witness for `c2_destructive_branch_gate`: the plain "cleanup" skill is
blocked with the fixed message on `main`, and passes validation on
`feature/x`. -/
theorem c2_witness :
    SafetyValidator.validate {} plainCleanupMatch mainCtx =
      { safe := false,
        warning := some ("Destructive operation blocked on main/master branch. " ++
          "Switch to a feature branch first."),
        warnings := [],
        checks_performed := ["destructive_operation"] }
    ∧ (SafetyValidator.validate {} plainCleanupMatch featureCtx).safe = true :=
  ⟨(c2_destructive_branch_gate {} plainCleanupMatch mainCtx rfl).1 ⟨rfl, Or.inl rfl⟩,
   (c2_destructive_branch_gate {} plainCleanupMatch featureCtx rfl).2 rfl rfl rfl⟩

/-- C2 counterexample: the claim "for the same (destructive) skill with
current branch `feature/x`, validate never returns safe=false" is false —
a destructive skill whose auto-trigger declares a custom `git_branch` safety
check allowing only `main` is blocked on `feature/x` by that custom check. -/
theorem c2_counterexample_custom_check_blocks_on_feature_branch :
    SafetyValidator.is_destructive cleanupGuardedSkill = true
    ∧ featureCtx.git_info.has_repo = true
    ∧ featureCtx.git_info.current_branch = "feature/x"
    ∧ SafetyValidator.validate {} cleanupGuardedMatch featureCtx =
        { safe := false,
          warning := some "Cleanup is only allowed on main",
          warnings := [], checks_performed := [] } :=
  ⟨rfl, rfl, rfl, rfl⟩

/-! ## C3 — per-argument source order -/

/-- C3 counterexample: the claim says `infer` walks each argument's
`infer_from` list in the order the list is given, so for `targetArg`
(`infer_from = [project_context, user_query]`) on the query
`"--target src2"` in a context whose first source directory is `"src"`, it
predicts the `project_context` value `"src"` (computed here by the
spec-modelled `infer_listed`).  The code instead consults `user_query`
first and returns the flag value `"src2"`. -/
theorem c3_counterexample_list_order_ignored :
    ArgumentInferrer.infer trivEngine "--target src2" analyzeSkill srcCtx =
      .ok [("target", PyVal.str "src2")]
    ∧ ArgumentInferrer.infer_listed trivEngine "--target src2" analyzeSkill srcCtx =
      .ok [("target", PyVal.str "src")]
    ∧ PyVal.str "src2" ≠ PyVal.str "src" :=
  ⟨rfl, rfl, by decide⟩

/-- The per-argument body of `infer` computes exactly the fixed-source-order
value: `user_query`, `project_context`, `git_history`, `learning`, each
consulted only when listed in `infer_from`, first non-absent value, else the
default. -/
theorem infer_value_eq_fixed_order (engine : RegexEngine) (query : String)
    (skill : Skill) (context : ProjectContext) (arg : ArgumentSchema) :
    ArgumentInferrer.infer_value engine query skill context arg =
      fixed_order_value engine query skill context arg := by
  unfold ArgumentInferrer.infer_value fixed_order_value
  rcases hx : ArgumentInferrer.extract_from_query engine query arg skill
    with e | (_ | v) <;>
  rcases hc : ArgumentInferrer.infer_from_context context arg with _ | cv <;>
  rcases hg : ArgumentInferrer.infer_from_git context.git_info arg with _ | gv <;>
  by_cases h1 : "user_query" ∈ arg.infer_from <;>
  by_cases h2 : "project_context" ∈ arg.infer_from <;>
  by_cases h3 : "git_history" ∈ arg.infer_from <;>
  by_cases h4 : "learning" ∈ arg.infer_from <;>
  simp [h1, h2, h3, h4, hx, hc, hg, InferSource.val, first_source_value,
    source_value, ArgumentInferrer.infer_from_learning, List.filter_cons,
    Bind.bind, Except.bind]

theorem alGet_dict_set_self {α : Type} (l : List (String × α)) (k : String)
    (v : α) : alGet (dict_set l k v) k = some v := by
  induction l with
  | nil => simp [dict_set, alGet]
  | cons p rest ih =>
      by_cases hp : p.1 = k <;> simp [dict_set, alGet, hp, ih]

theorem alGet_dict_set_ne {α : Type} (l : List (String × α)) (k : String)
    (v : α) (k' : String) (h : k ≠ k') :
    alGet (dict_set l k v) k' = alGet l k' := by
  induction l with
  | nil => simp [dict_set, alGet, h]
  | cons p rest ih =>
      by_cases hp : p.1 = k
      · rw [show dict_set (p :: rest) k v = (p.1, v) :: rest by
          simp [dict_set, hp]]
        have hp' : p.1 ≠ k' := fun hc => h (hp.symm.trans hc)
        simp [alGet, hp']
      · rw [show dict_set (p :: rest) k v = p :: dict_set rest k v by
          simp [dict_set, hp]]
        by_cases hp' : p.1 = k' <;> simp [alGet, hp', ih]

theorem hasKey_dict_set_ne {α : Type} (l : List (String × α)) (k : String)
    (v : α) (k' : String) (h : k ≠ k') :
    hasKey (dict_set l k v) k' = hasKey l k' := by
  induction l with
  | nil => simp [dict_set, hasKey, h]
  | cons p rest ih =>
      by_cases hp : p.1 = k
      · rw [show dict_set (p :: rest) k v = (p.1, v) :: rest by
          simp [dict_set, hp]]
        simp [hasKey]
      · rw [show dict_set (p :: rest) k v = p :: dict_set rest k v by
          simp [dict_set, hp]]
        simp [hasKey, ih]

theorem alGet_eq_none_of_hasKey_false {α : Type} (l : List (String × α))
    (k : String) (h : hasKey l k = false) : alGet l k = none := by
  induction l with
  | nil => rfl
  | cons p rest ih =>
      simp [hasKey] at h
      simp [alGet, h.1, ih h.2]

theorem mem_dict_set {α : Type} (kv : String × α) (l : List (String × α))
    (k : String) (v : α) (h : kv ∈ dict_set l k v) : kv.1 = k ∨ kv ∈ l := by
  induction l with
  | nil => simp [dict_set] at h; simp [h]
  | cons p rest ih =>
      by_cases hp : p.1 = k <;> simp [dict_set, hp] at h
      · rcases h with h | h
        · left; rw [h]
        · right; simp [h]
      · rcases h with h | h
        · right; simp [h]
        · rcases ih h with h' | h'
          · left; exact h'
          · right; simp [h']

/-- Keys not named by any remaining argument are untouched by the
inference loop. -/
theorem inferGo_alGet_untouched (engine : RegexEngine) (query : String)
    (skill : Skill) (context : ProjectContext) (l : List ArgumentSchema)
    (acc res : List (String × PyVal)) (k : String)
    (hk : ∀ arg ∈ l, arg.name ≠ k)
    (h : ArgumentInferrer.inferGo engine query skill context l acc = .ok res) :
    alGet res k = alGet acc k := by
  induction l generalizing acc with
  | nil =>
      simp only [ArgumentInferrer.inferGo] at h
      cases h
      rfl
  | cons a rest ih =>
      simp only [ArgumentInferrer.inferGo] at h
      cases hv : ArgumentInferrer.infer_value engine query skill context a with
      | error e => rw [hv] at h; cases h
      | ok ov =>
          rw [hv] at h
          have hka : a.name ≠ k := hk a (List.mem_cons_self a rest)
          have hkr : ∀ arg ∈ rest, arg.name ≠ k := fun arg hm =>
            hk arg (List.mem_cons_of_mem a hm)
          cases ov with
          | none => exact ih _ hkr h
          | some v =>
              rw [ih _ hkr h]
              exact alGet_dict_set_ne acc a.name v k hka

/-- Main loop invariant: with pairwise-distinct argument names and an
accumulator containing none of them, the final dict's entry for each
argument is exactly the value its per-argument inference computed. -/
theorem inferGo_lookup (engine : RegexEngine) (query : String) (skill : Skill)
    (context : ProjectContext) :
    ∀ (l : List ArgumentSchema) (acc res : List (String × PyVal)),
      (l.map (fun a => a.name)).Nodup →
      (∀ arg ∈ l, hasKey acc arg.name = false) →
      ArgumentInferrer.inferGo engine query skill context l acc = .ok res →
      ∀ arg ∈ l,
        ArgumentInferrer.infer_value engine query skill context arg =
          .ok (alGet res arg.name) := by
  intro l
  induction l with
  | nil => intro acc res _ _ _ arg hm; cases hm
  | cons a rest ih =>
      intro acc res hnd hacc h arg hm
      have hnotin : a.name ∉ rest.map (fun b => b.name) :=
        (List.nodup_cons.mp hnd).1
      have hndr : (rest.map (fun b => b.name)).Nodup :=
        (List.nodup_cons.mp hnd).2
      have hnames : ∀ b ∈ rest, b.name ≠ a.name := by
        intro b hb hc
        exact hnotin (hc ▸ List.mem_map_of_mem (fun x => x.name) hb)
      simp only [ArgumentInferrer.inferGo] at h
      cases hv : ArgumentInferrer.infer_value engine query skill context a with
      | error e => simp [hv] at h
      | ok ov =>
          rcases List.mem_cons.mp hm with rfl | hmem
          · cases ov with
            | some v =>
                simp only [hv] at h
                rw [hv,
                  inferGo_alGet_untouched engine query skill context rest _ res
                    arg.name hnames h,
                  alGet_dict_set_self acc arg.name v]
            | none =>
                simp only [hv] at h
                rw [hv,
                  inferGo_alGet_untouched engine query skill context rest _ res
                    arg.name hnames h,
                  alGet_eq_none_of_hasKey_false acc arg.name
                    (hacc arg (List.mem_cons_self arg rest))]
          · cases ov with
            | some v =>
                simp only [hv] at h
                refine ih (dict_set acc a.name v) res hndr ?_ h arg hmem
                intro b hb
                rw [hasKey_dict_set_ne acc a.name v b.name
                  (fun hc => hnames b hb hc.symm)]
                exact hacc b (List.mem_cons_of_mem a hb)
            | none =>
                simp only [hv] at h
                exact ih acc res hndr
                  (fun b hb => hacc b (List.mem_cons_of_mem a hb)) h arg hmem

/-- C3 (amended): `infer` consults the inference sources in the fixed order
`user_query`, `project_context`, `git_history`, `learning` — a source being
consulted exactly when its name appears in the argument's `infer_from` list
(membership; the list's own order is ignored) — and takes the first
consulted source with a non-absent value, falling back to the schema's
`default` and otherwise omitting the argument: for every declared argument
(names pairwise distinct), the returned map's entry equals the
`fixed_order_value` of that argument.  (The unamended claim — that the
`infer_from` list is walked in the order the list is given — is refuted by
`c3_counterexample_list_order_ignored`.) -/
theorem c3_fixed_source_order (engine : RegexEngine) (query : String)
    (skill : Skill) (context : ProjectContext) (args : List (String × PyVal))
    (hnd : (skill.arguments.map (fun a => a.name)).Nodup)
    (h : ArgumentInferrer.infer engine query skill context = .ok args) :
    ∀ arg ∈ skill.arguments,
      fixed_order_value engine query skill context arg =
        .ok (alGet args arg.name) := by
  intro arg hm
  rw [← infer_value_eq_fixed_order]
  exact inferGo_lookup engine query skill context skill.arguments [] args hnd
    (fun _ _ => rfl) h arg hm

/-- Witness for `c3_fixed_source_order` on the concrete `analyzeSkill`
inference: the fixed-order value of `target` is the entry the code
returned. -/
theorem c3_witness :
    fixed_order_value trivEngine "--target src2" analyzeSkill srcCtx targetArg =
      .ok (alGet [("target", PyVal.str "src2")] "target") :=
  c3_fixed_source_order trivEngine "--target src2" analyzeSkill srcCtx
    [("target", PyVal.str "src2")] (by decide) rfl targetArg (by decide)

/-! ## C4 / C5 / C6 — ranking, confidence bounds, declared arguments -/

theorem mem_insertDesc (x : SkillMatch) (l : List SkillMatch) (z : SkillMatch)
    (h : z ∈ insertDesc x l) : z = x ∨ z ∈ l := by
  induction l with
  | nil => simp [insertDesc] at h; simp [h]
  | cons y ys ih =>
      by_cases hc : y.confidence ≤ x.confidence
      · rw [show insertDesc x (y :: ys) = x :: y :: ys by
          simp [insertDesc, hc]] at h
        rcases List.mem_cons.mp h with h | h
        · exact Or.inl h
        · exact Or.inr h
      · rw [show insertDesc x (y :: ys) = y :: insertDesc x ys by
          simp [insertDesc, hc]] at h
        rcases List.mem_cons.mp h with h | h
        · exact Or.inr (h ▸ List.mem_cons_self y ys)
        · rcases ih h with h' | h'
          · exact Or.inl h'
          · exact Or.inr (List.mem_cons_of_mem y h')

theorem pairwise_insertDesc (x : SkillMatch) (l : List SkillMatch)
    (h : l.Pairwise (fun a b => b.confidence ≤ a.confidence)) :
    (insertDesc x l).Pairwise (fun a b => b.confidence ≤ a.confidence) := by
  induction l with
  | nil => simp [insertDesc]
  | cons y ys ih =>
      rcases List.pairwise_cons.mp h with ⟨hy, hys⟩
      by_cases hc : y.confidence ≤ x.confidence
      · rw [show insertDesc x (y :: ys) = x :: y :: ys by simp [insertDesc, hc]]
        refine List.pairwise_cons.mpr ⟨?_, h⟩
        intro z hz
        rcases List.mem_cons.mp hz with rfl | hz'
        · exact hc
        · exact le_trans (hy z hz') hc
      · rw [show insertDesc x (y :: ys) = y :: insertDesc x ys by
          simp [insertDesc, hc]]
        refine List.pairwise_cons.mpr ⟨?_, ih hys⟩
        intro z hz
        rcases mem_insertDesc x ys z hz with rfl | hz'
        · exact le_of_lt (lt_of_not_le hc)
        · exact hy z hz'

theorem pairwise_sortDesc (l : List SkillMatch) :
    (sortDesc l).Pairwise (fun a b => b.confidence ≤ a.confidence) := by
  induction l with
  | nil => simp [sortDesc]
  | cons x xs ih => exact pairwise_insertDesc x (sortDesc xs) ih

theorem filter_insertDesc (x : SkillMatch) (l : List SkillMatch) (c : ℚ) :
    (insertDesc x l).filter (fun m => m.confidence = c) =
      if x.confidence = c then x :: l.filter (fun m => m.confidence = c)
      else l.filter (fun m => m.confidence = c) := by
  induction l with
  | nil => by_cases hx : x.confidence = c <;> simp [insertDesc, hx]
  | cons y ys ih =>
      by_cases hc : y.confidence ≤ x.confidence
      · rw [show insertDesc x (y :: ys) = x :: y :: ys by simp [insertDesc, hc]]
        by_cases hx : x.confidence = c <;> simp [List.filter_cons, hx]
      · rw [show insertDesc x (y :: ys) = y :: insertDesc x ys by
          simp [insertDesc, hc]]
        have hxy : x.confidence < y.confidence := lt_of_not_le hc
        by_cases hx : x.confidence = c
        · have hy : y.confidence ≠ c := by
            rw [← hx]; exact ne_of_gt hxy
          simp [List.filter_cons, hy, ih, hx]
        · by_cases hyc : y.confidence = c <;>
            simp [List.filter_cons, hyc, ih, hx]

/-- Ties preserve first-seen order: the stable descending sort leaves every
equal-confidence class in its original order. -/
theorem filter_sortDesc (l : List SkillMatch) (c : ℚ) :
    (sortDesc l).filter (fun m => m.confidence = c) =
      l.filter (fun m => m.confidence = c) := by
  induction l with
  | nil => rfl
  | cons x xs ih =>
      by_cases hx : x.confidence = c <;>
        simp [sortDesc, filter_insertDesc, hx, ih, List.filter_cons]

theorem assignArgs_map_proj (engine : RegexEngine) (query : String)
    (context : ProjectContext) :
    ∀ (l l' : List SkillMatch), assignArgs engine query context l = .ok l' →
      l'.map (fun m => (m.skill, m.confidence)) =
        l.map (fun m => (m.skill, m.confidence)) := by
  intro l
  induction l with
  | nil =>
      intro l' h
      simp only [assignArgs] at h
      cases h
      rfl
  | cons m rest ih =>
      intro l' h
      simp only [assignArgs] at h
      cases hi : ArgumentInferrer.infer engine query m.skill context with
      | error e => simp [hi] at h
      | ok args =>
          simp only [hi] at h
          cases hr : assignArgs engine query context rest with
          | error e => simp [hr] at h
          | ok final =>
              simp only [hr] at h
              cases h
              simp [ih final hr]

theorem assignArgs_infer (engine : RegexEngine) (query : String)
    (context : ProjectContext) :
    ∀ (l l' : List SkillMatch), assignArgs engine query context l = .ok l' →
      ∀ m' ∈ l', ∃ m ∈ l, m'.skill = m.skill ∧
        ArgumentInferrer.infer engine query m.skill context = .ok m'.arguments := by
  intro l
  induction l with
  | nil =>
      intro l' h
      simp only [assignArgs] at h
      cases h
      intro m' hm'
      cases hm'
  | cons m rest ih =>
      intro l' h
      simp only [assignArgs] at h
      cases hi : ArgumentInferrer.infer engine query m.skill context with
      | error e => simp [hi] at h
      | ok args =>
          simp only [hi] at h
          cases hr : assignArgs engine query context rest with
          | error e => simp [hr] at h
          | ok final =>
              simp only [hr] at h
              cases h
              intro m' hm'
              rcases List.mem_cons.mp hm' with rfl | hmem
              · exact ⟨m, List.mem_cons_self m rest, rfl, hi⟩
              · obtain ⟨m0, hm0, hsk, hinf⟩ := ih final hr m' hmem
                exact ⟨m0, List.mem_cons_of_mem m hm0, hsk, hinf⟩

/-- C4: `match()` returns at most 3 entries, sorted descending by
confidence, and (because the sort is stable) candidates of equal confidence
keep the order in which the merge of the keyword, pattern and primary
stages first produced them: the returned matches are, skill-and-confidence
wise, the first three of the stable descending sort of the boosted merged
candidates, and filtering that sort at any confidence value reproduces the
merge-order list. -/
theorem c4_match_ranking (skills : List Skill) (engine : RegexEngine)
    (user_query : String) (context : ProjectContext) (r : MatchResult)
    (h : SkillMatcher.match_query skills engine user_query context = .ok r) :
    r.matches_.length ≤ 3
    ∧ r.matches_.Pairwise (fun a b => b.confidence ≤ a.confidence)
    ∧ r.matches_.map (fun m => (m.skill, m.confidence)) =
        ((sortDesc (SkillMatcher.boosted_candidates skills engine user_query
          context)).take 3).map (fun m => (m.skill, m.confidence))
    ∧ ∀ c : ℚ,
        (sortDesc (SkillMatcher.boosted_candidates skills engine user_query
          context)).filter (fun m => m.confidence = c) =
        (SkillMatcher.boosted_candidates skills engine user_query
          context).filter (fun m => m.confidence = c) := by
  have hstable := filter_sortDesc
    (SkillMatcher.boosted_candidates skills engine user_query context)
  simp only [SkillMatcher.match_query] at h
  cases ha : assignArgs engine user_query context
      ((sortDesc (SkillMatcher.boosted_candidates skills engine user_query
        context)).take 3) with
  | error e => rw [ha] at h; cases h
  | ok final =>
      rw [ha] at h
      cases h
      have hproj := assignArgs_map_proj engine user_query context _ final ha
      have hconf : final.map (fun m => m.confidence) =
          ((sortDesc (SkillMatcher.boosted_candidates skills engine user_query
            context)).take 3).map (fun m => m.confidence) := by
        have := congrArg (List.map Prod.snd) hproj
        simpa [List.map_map, Function.comp] using this
      refine ⟨?_, ?_, hproj, fun c => hstable c⟩
      · have hlen := congrArg List.length hconf
        simp only [List.length_map] at hlen
        exact hlen ▸ List.length_take_le 3 _
      · have hrank := List.Pairwise.sublist
          (List.take_sublist 3 (sortDesc (SkillMatcher.boosted_candidates
            skills engine user_query context)))
          (pairwise_sortDesc (SkillMatcher.boosted_candidates skills engine
            user_query context))
        have h1 : (((sortDesc (SkillMatcher.boosted_candidates skills engine
            user_query context)).take 3).map (fun m => m.confidence)).Pairwise
              (fun a b : ℚ => b ≤ a) :=
          List.pairwise_map.mpr hrank
        rw [← hconf] at h1
        exact List.pairwise_map.mp h1

/-- Witness for `c4_match_ranking` on the concrete one-skill run
`match_query [fixSkill] trivEngine "fix the bug" emptyCtx = .ok fixResult`. -/
theorem c4_witness :
    fixResult.matches_.length ≤ 3
    ∧ fixResult.matches_.Pairwise (fun a b => b.confidence ≤ a.confidence)
    ∧ fixResult.matches_.map (fun m => (m.skill, m.confidence)) =
        ((sortDesc (SkillMatcher.boosted_candidates [fixSkill] trivEngine
          "fix the bug" emptyCtx)).take 3).map (fun m => (m.skill, m.confidence))
    ∧ ∀ c : ℚ,
        (sortDesc (SkillMatcher.boosted_candidates [fixSkill] trivEngine
          "fix the bug" emptyCtx)).filter (fun m => m.confidence = c) =
        (SkillMatcher.boosted_candidates [fixSkill] trivEngine
          "fix the bug" emptyCtx).filter (fun m => m.confidence = c) :=
  c4_match_ranking [fixSkill] trivEngine "fix the bug" emptyCtx fixResult
    (by with_unfolding_all rfl)

theorem mem_combineUpsert (m : SkillMatch) (l : List SkillMatch)
    (z : SkillMatch) (h : z ∈ combineUpsert m l) : z = m ∨ z ∈ l := by
  induction l with
  | nil => simp [combineUpsert] at h; simp [h]
  | cons x xs ih =>
      by_cases hx : x.skill.name = m.skill.name
      · by_cases hc : m.confidence > x.confidence
        · rw [show combineUpsert m (x :: xs) = m :: xs by
            simp [combineUpsert, hx, hc]] at h
          rcases List.mem_cons.mp h with h | h
          · exact Or.inl h
          · exact Or.inr (List.mem_cons_of_mem x h)
        · rw [show combineUpsert m (x :: xs) = x :: xs by
            simp [combineUpsert, hx, hc]] at h
          exact Or.inr h
      · rw [show combineUpsert m (x :: xs) = x :: combineUpsert m xs by
          simp [combineUpsert, hx]] at h
        rcases List.mem_cons.mp h with h | h
        · exact Or.inr (h ▸ List.mem_cons_self x xs)
        · rcases ih h with h' | h'
          · exact Or.inl h'
          · exact Or.inr (List.mem_cons_of_mem x h')

theorem mem_foldl_combineUpsert :
    ∀ (l : List SkillMatch) (acc : List SkillMatch) (z : SkillMatch),
      z ∈ l.foldl (fun a m => combineUpsert m a) acc → z ∈ acc ∨ z ∈ l := by
  intro l
  induction l with
  | nil => intro acc z h; exact Or.inl h
  | cons m rest ih =>
      intro acc z h
      rcases ih (combineUpsert m acc) z h with h' | h'
      · rcases mem_combineUpsert m acc z h' with h'' | h''
        · exact Or.inr (h'' ▸ List.mem_cons_self m rest)
        · exact Or.inl h''
      · exact Or.inr (List.mem_cons_of_mem m h')

theorem mem_combine_matches (ls : List (List SkillMatch)) (z : SkillMatch)
    (h : z ∈ SkillMatcher.combine_matches ls) : ∃ l ∈ ls, z ∈ l := by
  unfold SkillMatcher.combine_matches at h
  suffices hgen : ∀ (ls' : List (List SkillMatch)) (acc : List SkillMatch),
      z ∈ ls'.foldl (fun acc l => l.foldl (fun a m => combineUpsert m a) acc) acc →
      z ∈ acc ∨ ∃ l ∈ ls', z ∈ l by
    rcases hgen ls [] h with h' | h'
    · cases h'
    · exact h'
  intro ls'
  induction ls' with
  | nil => intro acc h'; exact Or.inl h'
  | cons l rest ih =>
      intro acc h'
      rcases ih _ h' with h'' | ⟨l', hl', hz⟩
      · rcases mem_foldl_combineUpsert l acc z h'' with h3 | h3
        · exact Or.inl h3
        · exact Or.inr ⟨l, List.mem_cons_self l rest, h3⟩
      · exact Or.inr ⟨l', List.mem_cons_of_mem l hl', hz⟩

theorem mem_bumpKeyword_base (skill_name : String) (acc : List SkillMatch)
    (hacc : ∀ m ∈ acc, m.base_confidence ≤ 0.75) :
    ∀ z ∈ bumpKeyword skill_name acc, z.base_confidence ≤ 0.75 := by
  induction acc with
  | nil => intro z hz; cases hz
  | cons x xs ih =>
      intro z hz
      by_cases hx : x.skill.name = skill_name
      · rw [show bumpKeyword skill_name (x :: xs) =
            { x with confidence := min (x.confidence + 0.15) 0.75,
                     base_confidence := min (x.confidence + 0.15) 0.75 } :: xs by
          simp [bumpKeyword, hx]] at hz
        rcases List.mem_cons.mp hz with rfl | hz'
        · exact min_le_right _ _
        · exact hacc z (List.mem_cons_of_mem x hz')
      · rw [show bumpKeyword skill_name (x :: xs) =
            x :: bumpKeyword skill_name xs by simp [bumpKeyword, hx]] at hz
        rcases List.mem_cons.mp hz with rfl | hz'
        · exact hacc _ (List.mem_cons_self _ xs)
        · exact ih (fun m hm => hacc m (List.mem_cons_of_mem _ hm)) z hz'

theorem keywordHit_base (skills : List Skill) (word : String)
    (acc : List SkillMatch) (skill_name : String)
    (hacc : ∀ m ∈ acc, m.base_confidence ≤ 0.75) :
    ∀ z ∈ keywordHit skills word acc skill_name, z.base_confidence ≤ 0.75 := by
  unfold keywordHit
  by_cases hin : acc.any (fun m => m.skill.name = skill_name)
  · simpa [hin] using mem_bumpKeyword_base skill_name acc hacc
  · cases hf : skills.find? (fun s => s.name = skill_name) with
    | none => simpa [hin, hf] using hacc
    | some skill =>
        intro z hz
        simp only [hin, hf, if_false, Bool.false_eq_true] at hz
        rcases List.mem_append.mp hz with hz' | hz'
        · exact hacc z hz'
        · rcases List.mem_singleton.mp hz' with rfl
          show (0.60 : ℚ) ≤ 0.75
          norm_num

theorem match_keywords_base (skills : List Skill) (query_lower : String) :
    ∀ m ∈ SkillMatcher.match_keywords skills query_lower,
      m.base_confidence ≤ 0.75 := by
  unfold SkillMatcher.match_keywords
  suffices hgen : ∀ (ws : List String) (acc : List SkillMatch),
      (∀ m ∈ acc, m.base_confidence ≤ 0.75) →
      ∀ m ∈ ws.foldl (fun acc word =>
        match alGet (SkillMatcher.keyword_index skills) word with
        | some names => names.foldl (keywordHit skills word) acc
        | none => acc) acc, m.base_confidence ≤ 0.75 by
    exact hgen _ [] (fun m hm => absurd hm (List.not_mem_nil m))
  intro ws
  induction ws with
  | nil => intro acc hacc m hm; exact hacc m hm
  | cons w rest ih =>
      intro acc hacc
      refine ih _ ?_
      cases hw : alGet (SkillMatcher.keyword_index skills) w with
      | none => simpa [hw] using hacc
      | some names =>
          simp only [hw]
          suffices hnames : ∀ (ns : List String) (acc' : List SkillMatch),
              (∀ m ∈ acc', m.base_confidence ≤ 0.75) →
              ∀ m ∈ ns.foldl (keywordHit skills w) acc',
                m.base_confidence ≤ 0.75 from hnames names acc hacc
          intro ns
          induction ns with
          | nil => intro acc' hacc' m hm; exact hacc' m hm
          | cons n nrest ihn =>
              intro acc' hacc'
              exact ihn _ (keywordHit_base skills w acc' n hacc')

theorem match_patterns_base (skills : List Skill) (engine : RegexEngine)
    (query : String) :
    ∀ m ∈ SkillMatcher.match_patterns skills engine query,
      m.base_confidence = 0.85 := by
  intro m hm
  unfold SkillMatcher.match_patterns at hm
  obtain ⟨skill, _, hs⟩ := List.mem_filterMap.mp hm
  cases hf : firstPatternHit engine query skill.intents.patterns with
  | none => rw [hf] at hs; cases hs
  | some hit => rw [hf] at hs; cases hs; rfl

theorem match_primary_base (skills : List Skill) (engine : RegexEngine)
    (query : String) :
    ∀ m ∈ SkillMatcher.match_primary skills engine query,
      m.base_confidence = 0.90 := by
  intro m hm
  unfold SkillMatcher.match_primary at hm
  obtain ⟨skill, _, hs⟩ := List.mem_filterMap.mp hm
  cases hf : firstPrimaryHit engine (pyLower query) skill.intents.primary with
  | none => rw [hf] at hs; cases hs
  | some hit => rw [hf] at hs; cases hs; rfl

/-- Every merged candidate's pre-boost base confidence is at most 1. -/
theorem merged_base_le_one (skills : List Skill) (engine : RegexEngine)
    (user_query : String) (m : SkillMatch)
    (hm : m ∈ SkillMatcher.merged_candidates skills engine user_query) :
    m.base_confidence ≤ 1 := by
  unfold SkillMatcher.merged_candidates at hm
  obtain ⟨l, hl, hml⟩ := mem_combine_matches _ m hm
  rcases List.mem_cons.mp hl with rfl | hl2
  · exact le_trans (match_keywords_base skills _ m hml) (by norm_num)
  rcases List.mem_cons.mp hl2 with rfl | hl3
  · rw [match_patterns_base skills engine user_query m hml]; norm_num
  rcases List.mem_cons.mp hl3 with rfl | hl4
  · rw [match_primary_base skills engine user_query m hml]; norm_num
  · cases hl4

theorem calculate_confidence_bounds (m : SkillMatch) (query : String)
    (context : ProjectContext) (hb : m.base_confidence ≤ 1) :
    m.base_confidence ≤ (SkillMatcher.calculate_confidence m query context).1
    ∧ (SkillMatcher.calculate_confidence m query context).1 ≤ 1 := by
  unfold SkillMatcher.calculate_confidence
  have h05 : (0 : ℚ) ≤ 0.05 := by norm_num
  have h10 : (1.0 : ℚ) = 1 := by norm_num
  split_ifs <;> dsimp only <;> try split_ifs
  all_goals dsimp only
  all_goals rw [h10]
  all_goals exact ⟨le_min (by linarith) hb, min_le_right _ _⟩

/-- C5: for every merged candidate, the final confidence produced by the
boosting step (`_calculate_confidence`) is at least the candidate's
pre-boost base confidence and at most 1. -/
theorem c5_boosted_confidence_bounds (skills : List Skill)
    (engine : RegexEngine) (user_query : String) (context : ProjectContext)
    (m : SkillMatch)
    (hm : m ∈ SkillMatcher.merged_candidates skills engine user_query) :
    m.base_confidence ≤
      (SkillMatcher.calculate_confidence m user_query context).1
    ∧ (SkillMatcher.calculate_confidence m user_query context).1 ≤ 1 :=
  calculate_confidence_bounds m user_query context
    (merged_base_le_one skills engine user_query m hm)

/-- Witness for `c5_boosted_confidence_bounds` at the concrete keyword-stage
candidate `fixMatch` of the `"fix the bug"` run. -/
theorem c5_witness :
    fixMatch.base_confidence ≤
      (SkillMatcher.calculate_confidence fixMatch "fix the bug" emptyCtx).1
    ∧ (SkillMatcher.calculate_confidence fixMatch "fix the bug" emptyCtx).1 ≤ 1 :=
  c5_boosted_confidence_bounds [fixSkill] trivEngine "fix the bug" emptyCtx
    fixMatch
    (by rw [show SkillMatcher.merged_candidates [fixSkill] trivEngine
          "fix the bug" = [fixMatch] from by with_unfolding_all rfl]
        exact List.mem_cons_self _ _)

/-- The inference loop only ever writes keys that are declared argument
names (or were already in the accumulator). -/
theorem inferGo_keys (engine : RegexEngine) (query : String) (skill : Skill)
    (context : ProjectContext) :
    ∀ (l : List ArgumentSchema) (acc res : List (String × PyVal)),
      ArgumentInferrer.inferGo engine query skill context l acc = .ok res →
      ∀ kv ∈ res, kv ∈ acc ∨ kv.1 ∈ l.map (fun a => a.name) := by
  intro l
  induction l with
  | nil =>
      intro acc res h kv hkv
      simp only [ArgumentInferrer.inferGo] at h
      cases h
      exact Or.inl hkv
  | cons a rest ih =>
      intro acc res h kv hkv
      simp only [ArgumentInferrer.inferGo] at h
      cases hv : ArgumentInferrer.infer_value engine query skill context a with
      | error e => simp [hv] at h
      | ok ov =>
          simp only [hv] at h
          cases ov with
          | some v =>
              rcases ih _ res h kv hkv with h' | h'
              · rcases mem_dict_set kv acc a.name v h' with h'' | h''
                · exact Or.inr (by simp [h''])
                · exact Or.inl h''
              · exact Or.inr (by simp [h'])
          | none =>
              rcases ih _ res h kv hkv with h' | h'
              · exact Or.inl h'
              · exact Or.inr (by simp [h'])

/-- C6: every SkillMatch in the MatchResult returned by `match` has an
argument map whose keys are all declared argument names of that skill —
the Argument Inferrer recomputes the map for every returned candidate,
superseding any capture-group arguments from the pattern/primary stages,
and it only writes declared names. -/
theorem c6_argument_keys_declared (skills : List Skill) (engine : RegexEngine)
    (user_query : String) (context : ProjectContext) (r : MatchResult)
    (h : SkillMatcher.match_query skills engine user_query context = .ok r) :
    ∀ m ∈ r.matches_, ∀ kv ∈ m.arguments,
      ∃ a ∈ m.skill.arguments, a.name = kv.1 := by
  simp only [SkillMatcher.match_query] at h
  cases ha : assignArgs engine user_query context
      ((sortDesc (SkillMatcher.boosted_candidates skills engine user_query
        context)).take 3) with
  | error e => rw [ha] at h; cases h
  | ok final =>
      rw [ha] at h
      cases h
      intro m hm kv hkv
      obtain ⟨m0, _, hsk, hinf⟩ :=
        assignArgs_infer engine user_query context _ final ha m hm
      simp only [ArgumentInferrer.infer] at hinf
      rcases inferGo_keys engine user_query m0.skill context
          m0.skill.arguments [] m.arguments hinf kv hkv with h0 | hname
      · cases h0
      · rw [hsk]
        obtain ⟨a, haa, han⟩ := List.mem_map.mp hname
        exact ⟨a, haa, han⟩

/-- Witness for `c6_argument_keys_declared`: in the concrete run
`match_query [c6Skill] trivEngine "analyze --target src2" srcCtx`, the one
entry of the returned argument map is the declared name `target`. -/
theorem c6_witness :
    ∃ a ∈ c6Match.skill.arguments, a.name = "target" :=
  c6_argument_keys_declared [c6Skill] trivEngine "analyze --target src2"
    srcCtx c6Result (by with_unfolding_all rfl) c6Match
    (List.mem_cons_self _ _) ("target", PyVal.str "src2")
    (List.mem_cons_self _ _)
